import Mathlib

/-!
A verification development for the backtracking sudoku solver (`sudoku.c`).

The C program keeps the puzzle in a `int8_t[9][9]` array that is mutated in
place.  Here the array is a 9-vector of 9-vectors of integers, every function
that writes to it returns the new array, and the recursion of `solve_sudoku`
is bounded by an explicit fuel argument (`none` means the fuel ran out; the
termination theorem shows that 82 units always suffice).  The input file of
`read_sudoku` is the list of its characters, the output of `print_sudoku` the
list of the characters written.
-/

namespace Sudoku

/-! ## Constants and the grid type -/

/-- The side of the grid (`#define MAJOR 9`). -/
abbrev MAJOR : Nat := 9

/-- The side of a partition (`#define MINOR 3`). -/
abbrev MINOR : Nat := 3

/-- The content of an empty cell (`#define EMPTY 0`). -/
abbrev EMPTY : Int := 0

/-- The grid type `typedef int8_t sudoku_grid_t[9][9]`: nine rows of nine cells.
Cell values are integers; the program never does arithmetic on them. -/
abbrev sudoku_grid_t : Type := Mathlib.Vector (Mathlib.Vector Int 9) 9

/-- The read `sudoku[i][j]`. -/
def cell (sudoku : sudoku_grid_t) (i j : Fin 9) : Int :=
  (sudoku.get i).get j

/-- The write `sudoku[i][j] = v`. -/
def setCell (sudoku : sudoku_grid_t) (i j : Fin 9) (v : Int) : sudoku_grid_t :=
  sudoku.set i ((sudoku.get i).set j v)

/-- Builds a grid from nine literal rows. -/
def mkGrid (r0 r1 r2 r3 r4 r5 r6 r7 r8 : Mathlib.Vector Int 9) : sudoku_grid_t :=
  ⟨[r0, r1, r2, r3, r4, r5, r6, r7, r8], rfl⟩

/-! ## `next_empty` -/

/-- The function `next_empty`: the two nested loops run `i` and `j` over `0..8` and
stop at the first cell that holds `EMPTY`.  The out-parameters `(*row, *col)`
are the result; `none` stands for the pair `(NONE, NONE) = (-1, -1)`. -/
def next_empty (sudoku : sudoku_grid_t) : Option (Fin 9 × Fin 9) :=
  (List.finRange 9).findSome? fun i =>
    (List.finRange 9).findSome? fun j =>
      if cell sudoku i j = EMPTY then some (i, j) else none

/-! ## `is_legal` -/

/-- The index `MINOR*(x/MINOR) + k` visited by a partition loop of `is_legal`,
which runs from `MINOR*(x/MINOR)` up to (excluding) `MINOR*(x/MINOR + 1)`.
For `x < 9` and `k < 3` it is a valid index. -/
def blockIdx (x : Fin 9) (k : Fin 3) : Fin 9 :=
  ⟨MINOR * (x.val / MINOR) + k.val, by
    have h1 := x.isLt
    have h2 := k.isLt
    show 3 * (x.val / 3) + k.val < 9
    omega⟩

/-- The function `is_legal`: three scans, each skipping the target cell, each
answering `false` at the first cell that holds `guess`.  The first loop reads
`sudoku[i][col]` for every `i`, the second `sudoku[row][j]` for every `j`, the
third the nine cells of the partition of `(row, col)`. -/
def is_legal (sudoku : sudoku_grid_t) (guess : Int) (row col : Fin 9) : Bool :=
  ((List.finRange 9).all fun i =>
      decide (row = i) || !decide (cell sudoku i col = guess)) &&
  ((List.finRange 9).all fun j =>
      decide (col = j) || !decide (cell sudoku row j = guess)) &&
  ((List.finRange 3).all fun a =>
    (List.finRange 3).all fun b =>
      (decide (row = blockIdx row a) && decide (col = blockIdx col b)) ||
        !decide (cell sudoku (blockIdx row a) (blockIdx col b) = guess))

/-! ## `solve_sudoku` -/

/-- The values taken by `guess` in `for (guess = 1; guess <= MAJOR; ++guess)`. -/
def guesses : List Int := [1, 2, 3, 4, 5, 6, 7, 8, 9]

/-- The `for` loop of `solve_sudoku` over the remaining guesses, on the current
array.  `recur` is the recursive call.  A legal guess is written into the cell
and the recursion runs on the written array; when it answers `true` the loop
returns `true` with the array the recursion left; when it answers `false` the
loop goes on with the array the recursion left (the cell is not cleared).
After the last guess the cell is set to `EMPTY` and the answer is `false`. -/
def guess_loop (recur : sudoku_grid_t → Option (Bool × sudoku_grid_t)) (row col : Fin 9) :
    List Int → sudoku_grid_t → Option (Bool × sudoku_grid_t)
  | [], sudoku => some (false, setCell sudoku row col EMPTY)
  | guess :: rest, sudoku =>
    if is_legal sudoku guess row col then
      match recur (setCell sudoku row col guess) with
      | none => none
      | some (true, s) => some (true, s)
      | some (false, s) => guess_loop recur row col rest s
    else
      guess_loop recur row col rest sudoku

/-- The function `solve_sudoku`, with a bound `fuel` on the recursion depth.
The result is the returned boolean and the array as the call leaves it. -/
def solve_sudoku : Nat → sudoku_grid_t → Option (Bool × sudoku_grid_t)
  | 0, _ => none
  | fuel + 1, sudoku =>
    match next_empty sudoku with
    | none => some (true, sudoku)
    | some (row, col) => guess_loop (solve_sudoku fuel) row col guesses sudoku

/-- The arrays on which `guess_loop` invokes the recursive call, in order. -/
def guess_loop_calls (recur : sudoku_grid_t → Option (Bool × sudoku_grid_t)) (row col : Fin 9) :
    List Int → sudoku_grid_t → List sudoku_grid_t
  | [], _ => []
  | guess :: rest, sudoku =>
    if is_legal sudoku guess row col then
      setCell sudoku row col guess ::
        (match recur (setCell sudoku row col guess) with
          | some (false, s) => guess_loop_calls recur row col rest s
          | _ => [])
    else
      guess_loop_calls recur row col rest sudoku

/-- The arrays passed to the recursive calls made directly by one invocation
of `solve_sudoku` on `sudoku`. -/
def solve_sudoku_calls : Nat → sudoku_grid_t → List sudoku_grid_t
  | 0, _ => []
  | fuel + 1, sudoku =>
    match next_empty sudoku with
    | none => []
    | some (row, col) => guess_loop_calls (solve_sudoku fuel) row col guesses sudoku

/-! ## Specification vocabulary -/

/-- Every cell is in `[0, 9]`. -/
def inRange (g : sudoku_grid_t) : Prop :=
  ∀ i j : Fin 9, 0 ≤ cell g i j ∧ cell g i j ≤ 9

/-- No cell is empty. -/
def full (g : sudoku_grid_t) : Prop :=
  ∀ i j : Fin 9, cell g i j ≠ EMPTY

/-- The number of empty cells. -/
def countEmpty (g : sudoku_grid_t) : Nat :=
  (Finset.univ.filter fun p : Fin 9 × Fin 9 => cell g p.1 p.2 = EMPTY).card

/-- The digits `1..9`. -/
def digits : List Int := [1, 2, 3, 4, 5, 6, 7, 8, 9]

/-- Row `i`, left to right. -/
def rowList (g : sudoku_grid_t) (i : Fin 9) : List Int :=
  (List.finRange 9).map fun j => cell g i j

/-- Column `j`, top to bottom. -/
def colList (g : sudoku_grid_t) (j : Fin 9) : List Int :=
  (List.finRange 9).map fun i => cell g i j

/-- Cell `(x, y)` of the 3x3 block `(a, b)`: row `3a + x`, column `3b + y`. -/
def blockCell (a x : Fin 3) : Fin 9 :=
  ⟨3 * a.val + x.val, by
    have h1 := a.isLt
    have h2 := x.isLt
    omega⟩

/-- The nine cells of block `(a, b)`, row by row. -/
def blockList (g : sudoku_grid_t) (a b : Fin 3) : List Int :=
  (List.finRange 3).flatMap fun x =>
    (List.finRange 3).map fun y => cell g (blockCell a x) (blockCell b y)

/-- The grid is a solved sudoku: every row, column and block is a permutation of `1..9`. -/
def valid (g : sudoku_grid_t) : Prop :=
  (∀ i, (rowList g i).Perm digits) ∧ (∀ j, (colList g j).Perm digits) ∧
    (∀ a b, (blockList g a b).Perm digits)

/-- The grid `s` agrees with `g` on every filled cell of `g`. -/
def agrees (g s : sudoku_grid_t) : Prop :=
  ∀ i j : Fin 9, cell g i j ≠ EMPTY → cell s i j = cell g i j

/-- The grid `s` is a valid solution of the puzzle `g`. -/
def solutionOf (g s : sudoku_grid_t) : Prop :=
  valid s ∧ agrees g s

/-- Two coordinates lie in a common row, column or 3x3 block. -/
def sameUnit (i j i2 j2 : Fin 9) : Prop :=
  i = i2 ∨ j = j2 ∨ (i.val / 3 = i2.val / 3 ∧ j.val / 3 = j2.val / 3)

/-- No two distinct filled cells that share a row, a column or a block hold the
same digit. -/
def consistent (g : sudoku_grid_t) : Prop :=
  ∀ i j i2 j2 : Fin 9, (i, j) ≠ (i2, j2) → sameUnit i j i2 j2 →
    cell g i j ≠ EMPTY → cell g i j ≠ cell g i2 j2

/-- Cell `(i, j)` comes before `(r, c)` in row-major order. -/
def rowMajorLt (i j r c : Fin 9) : Prop :=
  i < r ∨ (i = r ∧ j < c)

/-- Grid `a` is lexicographically smaller than `b`, cells compared in row-major
order: at the first cell where they differ, `a` holds the smaller value. -/
def lexLt (a b : sudoku_grid_t) : Prop :=
  ∃ r c : Fin 9, cell a r c < cell b r c ∧ ∀ i j, rowMajorLt i j r c → cell a i j = cell b i j

instance (g : sudoku_grid_t) : Decidable (inRange g) := by unfold inRange; infer_instance
instance (g : sudoku_grid_t) : Decidable (full g) := by unfold full; infer_instance
instance (g : sudoku_grid_t) : Decidable (valid g) := by unfold valid; infer_instance
instance (g s : sudoku_grid_t) : Decidable (agrees g s) := by unfold agrees; infer_instance
instance (g s : sudoku_grid_t) : Decidable (solutionOf g s) := by unfold solutionOf; infer_instance
instance (i j i2 j2 : Fin 9) : Decidable (sameUnit i j i2 j2) := by unfold sameUnit; infer_instance
instance (g : sudoku_grid_t) : Decidable (consistent g) := by unfold consistent; infer_instance
instance (i j r c : Fin 9) : Decidable (rowMajorLt i j r c) := by unfold rowMajorLt; infer_instance
instance (a b : sudoku_grid_t) : Decidable (lexLt a b) := by unfold lexLt; infer_instance


/-! ## Concrete grids -/

/-- A solved sudoku. -/
def solvedGrid : sudoku_grid_t := mkGrid
  ⟨[5, 3, 4, 6, 7, 8, 9, 1, 2], rfl⟩ ⟨[6, 7, 2, 1, 9, 5, 3, 4, 8], rfl⟩
  ⟨[1, 9, 8, 3, 4, 2, 5, 6, 7], rfl⟩ ⟨[8, 5, 9, 7, 6, 1, 4, 2, 3], rfl⟩
  ⟨[4, 2, 6, 8, 5, 3, 7, 9, 1], rfl⟩ ⟨[7, 1, 3, 9, 2, 4, 8, 5, 6], rfl⟩
  ⟨[9, 6, 1, 5, 3, 7, 2, 8, 4], rfl⟩ ⟨[2, 8, 7, 4, 1, 9, 6, 3, 5], rfl⟩
  ⟨[3, 4, 5, 2, 8, 6, 1, 7, 9], rfl⟩

/-- The solved grid with the cells (0,2), (4,4) and (8,8) emptied. -/
def nearPuzzle : sudoku_grid_t := mkGrid
  ⟨[5, 3, 0, 6, 7, 8, 9, 1, 2], rfl⟩ ⟨[6, 7, 2, 1, 9, 5, 3, 4, 8], rfl⟩
  ⟨[1, 9, 8, 3, 4, 2, 5, 6, 7], rfl⟩ ⟨[8, 5, 9, 7, 6, 1, 4, 2, 3], rfl⟩
  ⟨[4, 2, 6, 8, 0, 3, 7, 9, 1], rfl⟩ ⟨[7, 1, 3, 9, 2, 4, 8, 5, 6], rfl⟩
  ⟨[9, 6, 1, 5, 3, 7, 2, 8, 4], rfl⟩ ⟨[2, 8, 7, 4, 1, 9, 6, 3, 5], rfl⟩
  ⟨[3, 4, 5, 2, 8, 6, 1, 7, 0], rfl⟩

/-- The solved grid with the cells (3,5), (3,8), (4,5) and (4,8) emptied: the
digits 1 and 3 can be put back in two ways. -/
def twoWayPuzzle : sudoku_grid_t := mkGrid
  ⟨[5, 3, 4, 6, 7, 8, 9, 1, 2], rfl⟩ ⟨[6, 7, 2, 1, 9, 5, 3, 4, 8], rfl⟩
  ⟨[1, 9, 8, 3, 4, 2, 5, 6, 7], rfl⟩ ⟨[8, 5, 9, 7, 6, 0, 4, 2, 0], rfl⟩
  ⟨[4, 2, 6, 8, 5, 0, 7, 9, 0], rfl⟩ ⟨[7, 1, 3, 9, 2, 4, 8, 5, 6], rfl⟩
  ⟨[9, 6, 1, 5, 3, 7, 2, 8, 4], rfl⟩ ⟨[2, 8, 7, 4, 1, 9, 6, 3, 5], rfl⟩
  ⟨[3, 4, 5, 2, 8, 6, 1, 7, 9], rfl⟩

/-- The second solution of `twoWayPuzzle`. -/
def otherSolution : sudoku_grid_t := mkGrid
  ⟨[5, 3, 4, 6, 7, 8, 9, 1, 2], rfl⟩ ⟨[6, 7, 2, 1, 9, 5, 3, 4, 8], rfl⟩
  ⟨[1, 9, 8, 3, 4, 2, 5, 6, 7], rfl⟩ ⟨[8, 5, 9, 7, 6, 3, 4, 2, 1], rfl⟩
  ⟨[4, 2, 6, 8, 5, 1, 7, 9, 3], rfl⟩ ⟨[7, 1, 3, 9, 2, 4, 8, 5, 6], rfl⟩
  ⟨[9, 6, 1, 5, 3, 7, 2, 8, 4], rfl⟩ ⟨[2, 8, 7, 4, 1, 9, 6, 3, 5], rfl⟩
  ⟨[3, 4, 5, 2, 8, 6, 1, 7, 9], rfl⟩

/-- A consistent puzzle without solution: the last cell of the first row can
hold neither 8 nor 9. -/
def deadEndPuzzle : sudoku_grid_t := mkGrid
  ⟨[1, 2, 3, 4, 5, 6, 7, 0, 0], rfl⟩ ⟨[0, 0, 0, 0, 0, 0, 0, 0, 0], rfl⟩
  ⟨[0, 0, 0, 0, 0, 0, 0, 0, 0], rfl⟩ ⟨[0, 0, 0, 0, 0, 0, 0, 0, 9], rfl⟩
  ⟨[0, 0, 0, 0, 0, 0, 0, 0, 8], rfl⟩ ⟨[0, 0, 0, 0, 0, 0, 0, 0, 0], rfl⟩
  ⟨[0, 0, 0, 0, 0, 0, 0, 0, 0], rfl⟩ ⟨[0, 0, 0, 0, 0, 0, 0, 0, 0], rfl⟩
  ⟨[0, 0, 0, 0, 0, 0, 0, 0, 0], rfl⟩

/-- The solved grid with a second 5 written over the 3 of the first row and
the last cell emptied. -/
def dupRowPuzzle : sudoku_grid_t := mkGrid
  ⟨[5, 5, 4, 6, 7, 8, 9, 1, 2], rfl⟩ ⟨[6, 7, 2, 1, 9, 5, 3, 4, 8], rfl⟩
  ⟨[1, 9, 8, 3, 4, 2, 5, 6, 7], rfl⟩ ⟨[8, 5, 9, 7, 6, 1, 4, 2, 3], rfl⟩
  ⟨[4, 2, 6, 8, 5, 3, 7, 9, 1], rfl⟩ ⟨[7, 1, 3, 9, 2, 4, 8, 5, 6], rfl⟩
  ⟨[9, 6, 1, 5, 3, 7, 2, 8, 4], rfl⟩ ⟨[2, 8, 7, 4, 1, 9, 6, 3, 5], rfl⟩
  ⟨[3, 4, 5, 2, 8, 6, 1, 7, 0], rfl⟩

/-- The grid `dupRowPuzzle` with a 9 in the last cell. -/
def dupRowFilled : sudoku_grid_t := mkGrid
  ⟨[5, 5, 4, 6, 7, 8, 9, 1, 2], rfl⟩ ⟨[6, 7, 2, 1, 9, 5, 3, 4, 8], rfl⟩
  ⟨[1, 9, 8, 3, 4, 2, 5, 6, 7], rfl⟩ ⟨[8, 5, 9, 7, 6, 1, 4, 2, 3], rfl⟩
  ⟨[4, 2, 6, 8, 5, 3, 7, 9, 1], rfl⟩ ⟨[7, 1, 3, 9, 2, 4, 8, 5, 6], rfl⟩
  ⟨[9, 6, 1, 5, 3, 7, 2, 8, 4], rfl⟩ ⟨[2, 8, 7, 4, 1, 9, 6, 3, 5], rfl⟩
  ⟨[3, 4, 5, 2, 8, 6, 1, 7, 9], rfl⟩

/-! ## `read_sudoku` -/

/-- The size of the line buffer (`#define BUFFER_SIZE 256`). -/
abbrev BUFFER_SIZE : Nat := 256

/-- The outcome of `read_sudoku`: `ok g` when it returns true and leaves the
array `g`; `lineMissing n` when it prints "Not enough lines of input: line n
missing" and returns false; `faultyInput n` when it prints "Faulty input on
line n" and returns false. -/
inductive ReadResult where
  | ok (g : sudoku_grid_t)
  | lineMissing (n : Nat)
  | faultyInput (n : Nat)
  deriving DecidableEq

/-- The array under construction together with the list of the coordinates
`(i, j)` of every store `sudoku[i][j] = ...` executed so far, oldest first. -/
structure ReadState where
  grid : sudoku_grid_t
  writes : List (Nat × Nat)
  deriving DecidableEq

/-- The store `sudoku[i][j] = v` of `read_sudoku`, with plain integer indices.
The coordinate is always logged; the modelled array changes only when the
coordinate lies inside it. -/
def storeCell (st : ReadState) (i j : Nat) (v : Int) : ReadState :=
  { grid := if h : i < 9 ∧ j < 9 then setCell st.grid ⟨i, h.1⟩ ⟨j, h.2⟩ v else st.grid
    writes := st.writes ++ [(i, j)] }

/-- The characters `fgets` reads when at most `n` may be stored: it stops after
`n` characters, after a newline (which is kept), or at the end of the stream.
The result is the characters read and the rest of the stream. -/
def fgets_chars : Nat → List Char → List Char × List Char
  | 0, stream => ([], stream)
  | _ + 1, [] => ([], [])
  | n + 1, c :: stream =>
    if c = '\n' then ([c], stream)
    else ((c :: (fgets_chars n stream).1), (fgets_chars n stream).2)

/-- The call `fgets(buffer, size, file)`: at most `size - 1` characters are read. -/
def fgets (size : Nat) (stream : List Char) : List Char × List Char :=
  fgets_chars (size - 1) stream

/-- The `if / else if` at the head of the parsing loop body, for the character
`c`: a digit stores `c - '0'` at `sudoku[i][j]` and increments `j`; a dot stores
`EMPTY` there and increments `j`; any other character changes nothing. -/
def parse_char (i : Nat) (c : Char) (j : Nat) (st : ReadState) : Nat × ReadState :=
  if '0' ≤ c ∧ c ≤ '9' then
    (j + 1, storeCell st i j ((c.toNat : Int) - ('0'.toNat : Int)))
  else if c = '.' then
    (j + 1, storeCell st i j EMPTY)
  else
    (j, st)

/-- The loop `for (pos = 0; buffer[pos] != 0; ++pos)` of `read_sudoku` on line
`i`, run on the characters still to be visited, with the current `j`.  After
the character is handled, `j > MAJOR` resets `j` to 0 and leaves the loop. -/
def parse_line (i : Nat) : List Char → Nat → ReadState → Nat × ReadState
  | [], j, st => (j, st)
  | c :: rest, j, st =>
    if c = '\x00' then (j, st)
    else if (parse_char i c j st).1 > MAJOR then (0, (parse_char i c j st).2)
    else parse_line i rest (parse_char i c j st).1 (parse_char i c j st).2

/-- The outer loop `for (i = 0; i < MAJOR; ++i)` of `read_sudoku`, with `n`
iterations left.  The canary test `buffer[0] == 0` succeeds when `fgets` read
nothing or when the first character read is the NUL character. -/
def read_rows : Nat → Nat → List Char → ReadState → Option ReadResult × ReadState
  | 0, _, _, st => (none, st)
  | n + 1, i, stream, st =>
    if ((fgets BUFFER_SIZE stream).1).head? = none ∨
        ((fgets BUFFER_SIZE stream).1).head? = some '\x00' then
      (some (ReadResult.lineMissing (i + 1)), st)
    else if (parse_line i (fgets BUFFER_SIZE stream).1 0 st).1 < MAJOR then
      (some (ReadResult.faultyInput (i + 1)), (parse_line i (fgets BUFFER_SIZE stream).1 0 st).2)
    else
      read_rows n (i + 1) (fgets BUFFER_SIZE stream).2
        (parse_line i (fgets BUFFER_SIZE stream).1 0 st).2

/-- The whole run of `read_sudoku` on the array `g0` (whatever it holds at
entry) and the characters of the file: the error, if any, and the final state. -/
def read_sudoku_run (g0 : sudoku_grid_t) (text : List Char) : Option ReadResult × ReadState :=
  read_rows MAJOR 0 text { grid := g0, writes := [] }

/-- The function `read_sudoku`. -/
def read_sudoku (g0 : sudoku_grid_t) (text : List Char) : ReadResult :=
  match (read_sudoku_run g0 text).1 with
  | some e => e
  | none => ReadResult.ok (read_sudoku_run g0 text).2.grid

/-- The coordinates of the stores `read_sudoku` executes, in order. -/
def read_sudoku_writes (g0 : sudoku_grid_t) (text : List Char) : List (Nat × Nat) :=
  (read_sudoku_run g0 text).2.writes

/-! ### Lines of a text -/

/-- The first line of a text: its characters before the first newline. -/
def firstLine (text : List Char) : List Char :=
  text.takeWhile fun c => c ≠ '\n'

/-- The text after its first line and the newline that ends it. -/
def dropLine (text : List Char) : List Char :=
  (text.dropWhile fun c => c ≠ '\n').drop 1

/-- The text after its first `k` lines. -/
def dropLines : List Char → Nat → List Char
  | text, 0 => text
  | text, k + 1 => dropLines (dropLine text) k

/-- Line number `k` of a text, counted from 0. -/
def lineAt (text : List Char) (k : Nat) : List Char :=
  firstLine (dropLines text k)

/-- The text has a line number `k` (counted from 0): something is left to
read after `k` lines. -/
def hasLine (text : List Char) (k : Nat) : Prop :=
  dropLines text k ≠ []

/-- The recognised characters: the digits and the dot. -/
def isRecognised (c : Char) : Bool :=
  decide ('0' ≤ c ∧ c ≤ '9') || decide (c = '.')

/-- The recognised characters of a line, in order. -/
def recognised (line : List Char) : List Char :=
  line.filter isRecognised

/-- The value a recognised character stands for: 0 for the dot, the numeric
value for a digit. -/
def cellValue (c : Char) : Int :=
  if c = '.' then 0 else (c.toNat : Int) - 48

/-- A line that `fgets` reads whole and that the parsing loop visits whole: at
most 254 characters before the line end, none of them NUL. -/
def plainLine (line : List Char) : Prop :=
  line.length ≤ 254 ∧ '\x00' ∉ line

instance (text : List Char) (k : Nat) : Decidable (hasLine text k) := by
  unfold hasLine; infer_instance

instance (line : List Char) : Decidable (plainLine line) := by unfold plainLine; infer_instance

/-! ## `print_sudoku` -/

/-- The characters printed for one cell: `printf(" .")` for an empty cell,
`printf(" %d", v)` otherwise. -/
def print_cell (v : Int) : List Char :=
  if v = EMPTY then " .".toList else (" " ++ toString v).toList

/-- The inner loop of `print_sudoku` for row `i`, followed by the right border:
before each cell whose column is a multiple of `MINOR` comes `" |"`. -/
def print_row (sudoku : sudoku_grid_t) (i : Fin 9) : List Char :=
  ((List.finRange 9).flatMap fun j =>
      (if j.val % MINOR = 0 then " |".toList else []) ++ print_cell (cell sudoku i j)) ++
    " |\n".toList

/-- The function `print_sudoku`: the characters written to standard output. -/
def print_sudoku (sudoku : sudoku_grid_t) : List Char :=
  " -------------------------\n".toList ++
    ((List.finRange 9).flatMap fun i =>
      (if i.val ≠ 0 ∧ i.val % MINOR = 0 then " --------+-------+--------\n".toList else []) ++
        print_row sudoku i) ++
    " -------------------------\n".toList

/-! ### The expected layout -/

/-- The character that shows a cell: a dot for 0, the decimal digit for `1..9`. -/
def cellChar (v : Int) : Char :=
  if v = 0 then '.' else Char.ofNat (48 + v.toNat)

/-- The border line, without its newline. -/
def borderLine : List Char := " -------------------------".toList

/-- The horizontal separator line, without its newline. -/
def separatorLine : List Char := " --------+-------+--------".toList

/-- The line ` | a b c | d e f | g h i |` of row `i`, without its newline. -/
def rowLine (g : sudoku_grid_t) (i : Fin 9) : List Char :=
  [' ', '|', ' ', cellChar (cell g i 0), ' ', cellChar (cell g i 1), ' ', cellChar (cell g i 2),
   ' ', '|', ' ', cellChar (cell g i 3), ' ', cellChar (cell g i 4), ' ', cellChar (cell g i 5),
   ' ', '|', ' ', cellChar (cell g i 6), ' ', cellChar (cell g i 7), ' ', cellChar (cell g i 8),
   ' ', '|']

/-- The thirteen lines of the expected output, in order. -/
def outputLines (g : sudoku_grid_t) : List (List Char) :=
  [borderLine, rowLine g 0, rowLine g 1, rowLine g 2, separatorLine,
   rowLine g 3, rowLine g 4, rowLine g 5, separatorLine,
   rowLine g 6, rowLine g 7, rowLine g 8, borderLine]

/-- The digit characters `1..9`. -/
def digitChars : List Char := ['1', '2', '3', '4', '5', '6', '7', '8', '9']

/-! ## The solver with C integer indices and checked array accesses

The functions below follow `next_empty`, `is_legal` and `solve_sudoku` once more,
this time with `int` coordinates as in the C text, the sentinel `NONE`, and an
explicit outcome `outOfBounds` for an access outside `[0, 9) x [0, 9)`. -/

/-- The sentinel coordinate (`#define NONE -1`). -/
abbrev NONE : Int := -1

/-- The outcome of a run whose array accesses are checked. -/
inductive Checked (α : Type) where
  | done (a : α)
  | outOfBounds
  | outOfFuel
  deriving DecidableEq

/-- The read `sudoku[i][j]` with integer indices; `none` outside the array. -/
def readAt (g : sudoku_grid_t) (i j : Int) : Option Int :=
  if h : 0 ≤ i ∧ i < 9 ∧ 0 ≤ j ∧ j < 9 then
    some (cell g ⟨i.toNat, by omega⟩ ⟨j.toNat, by omega⟩)
  else none

/-- The write `sudoku[i][j] = v` with integer indices; `none` outside the array. -/
def writeAt (g : sudoku_grid_t) (i j : Int) (v : Int) : Option sudoku_grid_t :=
  if h : 0 ≤ i ∧ i < 9 ∧ 0 ≤ j ∧ j < 9 then
    some (setCell g ⟨i.toNat, by omega⟩ ⟨j.toNat, by omega⟩ v)
  else none

/-- The values of `x` in `for (x = lo; x < hi; ++x)`. -/
def intRange (lo hi : Int) : List Int :=
  (List.range (hi - lo).toNat).map fun k => lo + (k : Int)

/-- The coordinates `next_empty` visits, in order. -/
def next_empty_coords : List (Int × Int) :=
  (intRange 0 MAJOR).flatMap fun i => (intRange 0 MAJOR).map fun j => (i, j)

/-- The scan of `next_empty` over the coordinates still to be visited: the
first one that holds `EMPTY` is returned, `(NONE, NONE)` when none does. -/
def next_empty_scan (g : sudoku_grid_t) : List (Int × Int) → Option (Int × Int)
  | [] => some (NONE, NONE)
  | (i, j) :: rest =>
    match readAt g i j with
    | none => none
    | some v => if v = EMPTY then some (i, j) else next_empty_scan g rest

/-- The function `next_empty` with checked reads: the pair `(*row, *col)` it
leaves, or `none` after an access outside the array. -/
def next_empty_checked (g : sudoku_grid_t) : Option (Int × Int) :=
  next_empty_scan g next_empty_coords

/-- The coordinates `is_legal` reads when no loop returns early, in order: the
first loop reads `(i, col)` for `i` in `0..8` other than `row`, the second
`(row, j)` for `j` other than `col`, the third the partition
`MINOR*(row/MINOR) .. MINOR*(row/MINOR + 1) - 1` by
`MINOR*(col/MINOR) .. MINOR*(col/MINOR + 1) - 1` without `(row, col)`. -/
def is_legal_coords (row col : Int) : List (Int × Int) :=
  (((intRange 0 MAJOR).filter fun i => decide (¬ row = i)).map fun i => (i, col)) ++
  (((intRange 0 MAJOR).filter fun j => decide (¬ col = j)).map fun j => (row, j)) ++
  ((intRange (MINOR * (row.tdiv MINOR)) (MINOR * (row.tdiv MINOR + 1))).flatMap fun i =>
    ((intRange (MINOR * (col.tdiv MINOR)) (MINOR * (col.tdiv MINOR + 1))).filter
      fun j => decide (¬ (row = i ∧ col = j))).map fun j => (i, j))

/-- The scans of `is_legal` over the coordinates still to be read: `false` at
the first one that holds `guess`, `true` when none does. -/
def is_legal_scan (g : sudoku_grid_t) (guess : Int) : List (Int × Int) → Option Bool
  | [] => some true
  | (i, j) :: rest =>
    match readAt g i j with
    | none => none
    | some v => if v = guess then some false else is_legal_scan g guess rest

/-- The function `is_legal` with checked reads. -/
def is_legal_checked (g : sudoku_grid_t) (guess : Int) (row col : Int) : Option Bool :=
  is_legal_scan g guess (is_legal_coords row col)

/-- The guess loop of `solve_sudoku` with checked accesses. -/
def guess_loop_checked (recur : sudoku_grid_t → Checked (Bool × sudoku_grid_t))
    (row col : Int) : List Int → sudoku_grid_t → Checked (Bool × sudoku_grid_t)
  | [], sudoku =>
    match writeAt sudoku row col EMPTY with
    | none => Checked.outOfBounds
    | some s => Checked.done (false, s)
  | guess :: rest, sudoku =>
    match is_legal_checked sudoku guess row col with
    | none => Checked.outOfBounds
    | some false => guess_loop_checked recur row col rest sudoku
    | some true =>
      match writeAt sudoku row col guess with
      | none => Checked.outOfBounds
      | some s =>
        match recur s with
        | Checked.done (true, s2) => Checked.done (true, s2)
        | Checked.done (false, s2) => guess_loop_checked recur row col rest s2
        | Checked.outOfBounds => Checked.outOfBounds
        | Checked.outOfFuel => Checked.outOfFuel

/-- The function `solve_sudoku` with checked accesses. -/
def solve_sudoku_checked : Nat → sudoku_grid_t → Checked (Bool × sudoku_grid_t)
  | 0, _ => Checked.outOfFuel
  | fuel + 1, sudoku =>
    match next_empty_checked sudoku with
    | none => Checked.outOfBounds
    | some (row, col) =>
      if row = -1 ∧ col = -1 then Checked.done (true, sudoku)
      else guess_loop_checked (solve_sudoku_checked fuel) row col guesses sudoku

/-- The verdict of the unchecked model seen as a checked outcome. -/
def toChecked : Option (Bool × sudoku_grid_t) → Checked (Bool × sudoku_grid_t)
  | some r => Checked.done r
  | none => Checked.outOfFuel

/-- The integer coordinate of a cell. -/
def coordOf (p : Fin 9 × Fin 9) : Int × Int :=
  ((p.1.val : Int), (p.2.val : Int))

/-- The cells `is_legal` compares with the guess, in the order of its loops. -/
def is_legal_cells (row col : Fin 9) : List (Fin 9 × Fin 9) :=
  (((List.finRange 9).filter fun i => decide (¬ row = i)).map fun i => (i, col)) ++
  (((List.finRange 9).filter fun j => decide (¬ col = j)).map fun j => (row, j)) ++
  ((List.finRange 3).flatMap fun a =>
    ((List.finRange 3).filter
      fun b => decide (¬ (row = blockIdx row a ∧ col = blockIdx col b))).map
        fun b => (blockIdx row a, blockIdx col b))

/-- All cells in row-major order. -/
def allCells : List (Fin 9 × Fin 9) :=
  (List.finRange 9).flatMap fun i => (List.finRange 9).map fun j => (i, j)

/-- The invocations made during `solve_sudoku fuel0 g0`: `SearchCall fuel0 g0 fuel g`
holds when the run invokes `solve_sudoku` with fuel `fuel` on the array `g`. -/
inductive SearchCall (fuel0 : Nat) (g0 : sudoku_grid_t) : Nat → sudoku_grid_t → Prop where
  | root : SearchCall fuel0 g0 fuel0 g0
  | step {fuel : Nat} {g x : sudoku_grid_t} :
      SearchCall fuel0 g0 (fuel + 1) g → x ∈ solve_sudoku_calls (fuel + 1) g →
      SearchCall fuel0 g0 fuel x

/-! ## Concrete texts -/

/-- A well-known puzzle, as the text of an input file. -/
def classicText : List Char :=
  ("53..7....\n6..195...\n.98....6.\n8...6...3\n4..8.3..1\n" ++
    "7...2...6\n.6....28.\n...419..5\n....8..79\n").toList

/-- The grid `classicText` describes. -/
def classicPuzzle : sudoku_grid_t := mkGrid
  ⟨[5, 3, 0, 0, 7, 0, 0, 0, 0], rfl⟩ ⟨[6, 0, 0, 1, 9, 5, 0, 0, 0], rfl⟩
  ⟨[0, 9, 8, 0, 0, 0, 0, 6, 0], rfl⟩ ⟨[8, 0, 0, 0, 6, 0, 0, 0, 3], rfl⟩
  ⟨[4, 0, 0, 8, 0, 3, 0, 0, 1], rfl⟩ ⟨[7, 0, 0, 0, 2, 0, 0, 0, 6], rfl⟩
  ⟨[0, 6, 0, 0, 0, 0, 2, 8, 0], rfl⟩ ⟨[0, 0, 0, 4, 1, 9, 0, 0, 5], rfl⟩
  ⟨[0, 0, 0, 0, 8, 0, 0, 7, 9], rfl⟩

/-- The same puzzle written with separators and with `0` for some empty cells. -/
def decoratedText : List Char :=
  ("5 3 0 | . 7 . | . . .\n6..195...\n.98....6.\n8...6...3\r\n4..8.3..1\n" ++
    "7...2...6\n.6....28.\n...419..5\n[....8..79]").toList

/-- The puzzle text with 250 blanks in front of its first line, which is then
259 characters long. -/
def longLineText : List Char :=
  List.replicate 250 ' ' ++ classicText

/-- The puzzle text with a NUL character in front of its first line. -/
def nulLineText : List Char :=
  '\x00' :: classicText

/-- A text whose first line is 259 characters long with nine recognised
characters and whose second line has eight. -/
def longThenShortText : List Char :=
  List.replicate 250 ' ' ++ "53..7....\n12345678\n".toList

/-- A text whose only line starts with a NUL character and has eight recognised
characters. -/
def nulShortText : List Char :=
  '\x00' :: "12345678\n".toList

/-- A text of one line, 259 characters long, with nine recognised characters. -/
def longOnlyText : List Char :=
  List.replicate 250 ' ' ++ "53..7....\n".toList

/-- A text of one line that starts with a NUL character and has nine recognised
characters. -/
def nulOnlyText : List Char :=
  '\x00' :: "53..7....\n".toList

/-- The first three lines of the puzzle followed by a line of eight cells. -/
def shortFourthLineText : List Char :=
  "53..7....\n6..195...\n.98....6.\n8...6...\n4..8.3..1\n".toList

/-- The first three lines of the puzzle and nothing else. -/
def threeLineText : List Char :=
  "53..7....\n6..195...\n.98....6.\n".toList

/-- A text whose first line holds ten digits. -/
def tenDigitText : List Char :=
  "1234567890\n".toList

/-- Eight lines of the puzzle followed by a ninth line that holds ten digits. -/
def tenDigitLastLineText : List Char :=
  ("53..7....\n6..195...\n.98....6.\n8...6...3\n4..8.3..1\n" ++
    "7...2...6\n.6....28.\n...419..5\n1234567890\n").toList

/-- The text of `dupRowPuzzle`: two 5s in the first line. -/
def dupRowText : List Char :=
  ("554678912\n672195348\n198342567\n859761423\n426853791\n" ++
    "713924856\n961537284\n287419635\n34528617.\n").toList

/-! ## Reading and writing cells -/

theorem cell_setCell (g : sudoku_grid_t) (r c : Fin 9) (v : Int) (i j : Fin 9) :
    cell (setCell g r c v) i j = if i = r ∧ j = c then v else cell g i j := by
  unfold cell setCell
  by_cases hi : i = r
  · subst hi
    rw [Mathlib.Vector.get_set_same]
    by_cases hj : j = c
    · subst hj
      simp
    · rw [Mathlib.Vector.get_set_of_ne (Ne.symm hj)]
      simp [hj]
  · rw [Mathlib.Vector.get_set_of_ne (Ne.symm hi)]
    simp [hi]

theorem cell_setCell_same (g : sudoku_grid_t) (r c : Fin 9) (v : Int) :
    cell (setCell g r c v) r c = v := by
  simp [cell_setCell]

theorem cell_setCell_ne (g : sudoku_grid_t) (r c : Fin 9) (v : Int) (i j : Fin 9)
    (h : ¬ (i = r ∧ j = c)) : cell (setCell g r c v) i j = cell g i j := by
  simp [cell_setCell, h]

theorem grid_ext {a b : sudoku_grid_t} (h : ∀ i j, cell a i j = cell b i j) : a = b := by
  apply Mathlib.Vector.ext
  intro i
  apply Mathlib.Vector.ext
  intro j
  exact h i j

theorem setCell_setCell (g : sudoku_grid_t) (r c : Fin 9) (v w : Int) :
    setCell (setCell g r c v) r c w = setCell g r c w := by
  apply grid_ext
  intro i j
  simp only [cell_setCell]
  split <;> rfl

theorem setCell_cell_self (g : sudoku_grid_t) (r c : Fin 9) (v : Int) (h : cell g r c = v) :
    setCell g r c v = g := by
  apply grid_ext
  intro i j
  rw [cell_setCell]
  split
  · next hij => rw [hij.1, hij.2, h]
  · rfl

/-! ## `next_empty` finds the row-major first empty cell -/

theorem findSome_finRange_some {n : Nat} {β : Type} (f : Fin n → Option β) (b : β)
    (h : (List.finRange n).findSome? f = some b) :
    ∃ a, f a = some b ∧ ∀ i, i < a → f i = none := by
  rw [List.findSome?_eq_some_iff] at h
  obtain ⟨l1, a, l2, hl, hfa, hpre⟩ := h
  refine ⟨a, hfa, ?_⟩
  intro i hi
  have hmem : i ∈ l1 ++ a :: l2 := by
    rw [← hl]
    exact List.mem_finRange i
  have hpw : List.Pairwise (· < ·) (l1 ++ a :: l2) := by
    rw [← hl]
    exact List.pairwise_lt_finRange n
  rw [List.mem_append] at hmem
  rcases hmem with h1 | h2
  · exact hpre i h1
  · exfalso
    rw [List.mem_cons] at h2
    rcases h2 with h3 | h4
    · exact absurd h3 (Fin.ne_of_lt hi)
    · have hp2 := (List.pairwise_append.1 hpw).2.1
      have := (List.pairwise_cons.1 hp2).1 i h4
      exact absurd hi (not_lt.2 (le_of_lt this))

theorem next_empty_eq_none (g : sudoku_grid_t) : next_empty g = none ↔ full g := by
  unfold next_empty full
  simp only [List.findSome?_eq_none_iff, List.mem_finRange, true_implies]
  constructor
  · intro h i j hij
    have := h i j
    simp [hij] at this
  · intro h i j
    simp [h i j]

theorem next_empty_eq_some (g : sudoku_grid_t) (r c : Fin 9) (h : next_empty g = some (r, c)) :
    cell g r c = EMPTY ∧ ∀ i j, rowMajorLt i j r c → cell g i j ≠ EMPTY := by
  unfold next_empty at h
  obtain ⟨a, ha, hpre⟩ := findSome_finRange_some _ _ h
  obtain ⟨b, hb, hpre2⟩ := findSome_finRange_some _ _ ha
  by_cases h0 : cell g a b = EMPTY
  · rw [if_pos h0] at hb
    have hab : (a, b) = (r, c) := Option.some.inj hb
    have har : a = r := congrArg Prod.fst hab
    have hbc : b = c := congrArg Prod.snd hab
    subst har
    subst hbc
    refine ⟨h0, ?_⟩
    intro i j hlt hz
    rcases hlt with h1 | ⟨h1, h2⟩
    · have := hpre i h1
      rw [List.findSome?_eq_none_iff] at this
      have := this j (List.mem_finRange j)
      simp [hz] at this
    · subst h1
      have := hpre2 j h2
      simp [hz] at this
  · rw [if_neg h0] at hb
    exact absurd hb (by simp)

theorem next_empty_isSome_of_empty (g : sudoku_grid_t) (i j : Fin 9) (h : cell g i j = EMPTY) :
    ∃ r c, next_empty g = some (r, c) := by
  cases hn : next_empty g with
  | none => exact absurd h ((next_empty_eq_none g).1 hn i j)
  | some p => exact ⟨p.1, p.2, rfl⟩


/-! ## `is_legal` -/

theorem blockIdx_val (x : Fin 9) (k : Fin 3) : (blockIdx x k).val = 3 * (x.val / 3) + k.val := rfl

/-- Every index in the partition range of `x` is visited by the partition loop. -/
theorem exists_blockIdx (x i : Fin 9) (h1 : 3 * (x.val / 3) ≤ i.val)
    (h2 : i.val ≤ 3 * (x.val / 3) + 2) : ∃ k : Fin 3, blockIdx x k = i := by
  refine ⟨⟨i.val - 3 * (x.val / 3), by omega⟩, ?_⟩
  apply Fin.ext
  rw [blockIdx_val]
  show 3 * (x.val / 3) + (i.val - 3 * (x.val / 3)) = i.val
  omega

theorem is_legal_iff (g : sudoku_grid_t) (d : Int) (row col : Fin 9) :
    is_legal g d row col = true ↔
      ∀ i j : Fin 9, (i, j) ≠ (row, col) →
        (i = row ∨ j = col ∨
          (3 * (row.val / 3) ≤ i.val ∧ i.val ≤ 3 * (row.val / 3) + 2 ∧
            3 * (col.val / 3) ≤ j.val ∧ j.val ≤ 3 * (col.val / 3) + 2)) →
        cell g i j ≠ d := by
  unfold is_legal
  simp only [Bool.and_eq_true, List.all_eq_true, List.mem_finRange, true_implies,
    Bool.or_eq_true, decide_eq_true_eq, Bool.not_eq_true', decide_eq_false_iff_not]
  constructor
  · rintro ⟨⟨h1, h2⟩, h3⟩ i j hne hu
    rcases hu with hi | hj | ⟨hb1, hb2, hb3, hb4⟩
    · subst hi
      rcases h2 j with h | h
      · exact absurd (by rw [h]) hne
      · exact h
    · subst hj
      rcases h1 i with h | h
      · exact absurd (by rw [h]) hne
      · exact h
    · obtain ⟨a, ha⟩ := exists_blockIdx row i hb1 hb2
      obtain ⟨b, hb⟩ := exists_blockIdx col j hb3 hb4
      rcases h3 a b with h | h
      · rw [ha, hb] at h
        exact absurd (by rw [h.1, h.2]) hne
      · rw [ha, hb] at h
        exact h
  · intro h
    refine ⟨⟨?_, ?_⟩, ?_⟩
    · intro i
      by_cases hi : row = i
      · exact Or.inl hi
      · refine Or.inr (h i col ?_ (Or.inr (Or.inl rfl)))
        intro hc
        exact hi (congrArg Prod.fst hc).symm
    · intro j
      by_cases hj : col = j
      · exact Or.inl hj
      · refine Or.inr (h row j ?_ (Or.inl rfl))
        intro hc
        exact hj (congrArg Prod.snd hc).symm
    · intro a b
      by_cases hab : row = blockIdx row a ∧ col = blockIdx col b
      · exact Or.inl hab
      · refine Or.inr (h _ _ ?_ (Or.inr (Or.inr ?_)))
        · intro hc
          exact hab ⟨(congrArg Prod.fst hc).symm, (congrArg Prod.snd hc).symm⟩
        · have ha := a.isLt
          have hb := b.isLt
          simp only [blockIdx_val]
          omega

/-- The answer of `is_legal` does not depend on what the target cell holds. -/
theorem is_legal_setCell (g : sudoku_grid_t) (d v : Int) (row col : Fin 9) :
    is_legal (setCell g row col v) d row col = is_legal g d row col := by
  rw [Bool.eq_iff_iff, is_legal_iff, is_legal_iff]
  constructor
  · intro h i j hne hu
    have := h i j hne hu
    rwa [cell_setCell_ne] at this
    intro hc
    exact hne (by rw [hc.1, hc.2])
  · intro h i j hne hu
    rw [cell_setCell_ne]
    · exact h i j hne hu
    · intro hc
      exact hne (by rw [hc.1, hc.2])


/-! ## The guess loop

During the loop the array differs from the array at entry only in the target
cell, which holds the last legal guess.  The lemmas below describe the loop
started on `setCell g r c v`, for a callee that leaves the array as it found it
whenever it answers `false`. -/

theorem guess_loop_false {recur : sudoku_grid_t → Option (Bool × sudoku_grid_t)}
    (hrec : ∀ x x2, recur x = some (false, x2) → x2 = x)
    (g : sudoku_grid_t) (r c : Fin 9) (ds : List Int) :
    ∀ (v : Int) (out : sudoku_grid_t),
      guess_loop recur r c ds (setCell g r c v) = some (false, out) →
      out = setCell g r c EMPTY ∧
        ∀ d ∈ ds, is_legal g d r c = true →
          recur (setCell g r c d) = some (false, setCell g r c d) := by
  induction ds with
  | nil =>
    intro v out h
    simp only [guess_loop, setCell_setCell, Option.some.injEq, Prod.mk.injEq, true_and] at h
    exact ⟨h.symm, by simp⟩
  | cons d ds ih =>
    intro v out h
    rw [guess_loop, is_legal_setCell, setCell_setCell] at h
    by_cases hl : is_legal g d r c = true
    · rw [if_pos hl] at h
      cases hr : recur (setCell g r c d) with
      | none => rw [hr] at h; exact absurd h (by simp)
      | some res =>
        obtain ⟨b, s⟩ := res
        cases b with
        | true => rw [hr] at h; simp at h
        | false =>
          rw [hr] at h
          have hs : s = setCell g r c d := hrec _ _ hr
          subst hs
          obtain ⟨h1, h2⟩ := ih d out h
          refine ⟨h1, ?_⟩
          intro e he hle
          rcases List.mem_cons.1 he with h3 | h3
          · subst h3; exact hr
          · exact h2 e h3 hle
    · rw [if_neg hl] at h
      obtain ⟨h1, h2⟩ := ih v out h
      refine ⟨h1, ?_⟩
      intro e he hle
      rcases List.mem_cons.1 he with h3 | h3
      · subst h3; exact absurd hle hl
      · exact h2 e h3 hle

theorem guess_loop_true {recur : sudoku_grid_t → Option (Bool × sudoku_grid_t)}
    (hrec : ∀ x x2, recur x = some (false, x2) → x2 = x)
    (g : sudoku_grid_t) (r c : Fin 9) (ds : List Int) :
    ∀ (v : Int) (out : sudoku_grid_t),
      guess_loop recur r c ds (setCell g r c v) = some (true, out) →
      ∃ pre d post, ds = pre ++ d :: post ∧ is_legal g d r c = true ∧
        recur (setCell g r c d) = some (true, out) ∧
        ∀ e ∈ pre, is_legal g e r c = true →
          recur (setCell g r c e) = some (false, setCell g r c e) := by
  induction ds with
  | nil =>
    intro v out h
    simp [guess_loop] at h
  | cons d ds ih =>
    intro v out h
    rw [guess_loop, is_legal_setCell, setCell_setCell] at h
    by_cases hl : is_legal g d r c = true
    · rw [if_pos hl] at h
      cases hr : recur (setCell g r c d) with
      | none => rw [hr] at h; exact absurd h (by simp)
      | some res =>
        obtain ⟨b, s⟩ := res
        cases b with
        | true =>
          rw [hr] at h
          have hs : s = out := by simpa using h
          subst hs
          exact ⟨[], d, ds, rfl, hl, hr, by simp⟩
        | false =>
          rw [hr] at h
          have hs : s = setCell g r c d := hrec _ _ hr
          subst hs
          obtain ⟨pre, e, post, h1, h2, h3, h4⟩ := ih d out h
          refine ⟨d :: pre, e, post, by rw [h1]; rfl, h2, h3, ?_⟩
          intro e2 he2 hle
          rcases List.mem_cons.1 he2 with h5 | h5
          · subst h5; exact hr
          · exact h4 e2 h5 hle
    · rw [if_neg hl] at h
      obtain ⟨pre, e, post, h1, h2, h3, h4⟩ := ih v out h
      refine ⟨d :: pre, e, post, by rw [h1]; rfl, h2, h3, ?_⟩
      intro e2 he2 hle
      rcases List.mem_cons.1 he2 with h5 | h5
      · subst h5; exact absurd hle hl
      · exact h4 e2 h5 hle

theorem guess_loop_isSome {recur : sudoku_grid_t → Option (Bool × sudoku_grid_t)}
    (hrec : ∀ x x2, recur x = some (false, x2) → x2 = x)
    (g : sudoku_grid_t) (r c : Fin 9) (ds : List Int) :
    ∀ (v : Int),
      (∀ d ∈ ds, is_legal g d r c = true → ∃ res, recur (setCell g r c d) = some res) →
      ∃ res, guess_loop recur r c ds (setCell g r c v) = some res := by
  induction ds with
  | nil =>
    intro v _
    exact ⟨_, rfl⟩
  | cons d ds ih =>
    intro v htot
    rw [guess_loop, is_legal_setCell, setCell_setCell]
    have htot2 : ∀ e ∈ ds, is_legal g e r c = true → ∃ res, recur (setCell g r c e) = some res :=
      fun e he => htot e (List.mem_cons_of_mem d he)
    by_cases hl : is_legal g d r c = true
    · rw [if_pos hl]
      obtain ⟨res, hr⟩ := htot d (List.mem_cons_self d ds) hl
      obtain ⟨b, s⟩ := res
      cases b with
      | true => rw [hr]; exact ⟨_, rfl⟩
      | false =>
        rw [hr]
        have hs : s = setCell g r c d := hrec _ _ hr
        subst hs
        exact ih d htot2
    · rw [if_neg hl]
      exact ih v htot2

theorem guess_loop_calls_mem {recur : sudoku_grid_t → Option (Bool × sudoku_grid_t)}
    (hrec : ∀ x x2, recur x = some (false, x2) → x2 = x)
    (g : sudoku_grid_t) (r c : Fin 9) (ds : List Int) :
    ∀ (v : Int), ∀ x ∈ guess_loop_calls recur r c ds (setCell g r c v),
      ∃ d ∈ ds, is_legal g d r c = true ∧ x = setCell g r c d := by
  induction ds with
  | nil =>
    intro v x hx
    simp [guess_loop_calls] at hx
  | cons d ds ih =>
    intro v x hx
    rw [guess_loop_calls, is_legal_setCell, setCell_setCell] at hx
    by_cases hl : is_legal g d r c = true
    · rw [if_pos hl] at hx
      rcases List.mem_cons.1 hx with h1 | h1
      · exact ⟨d, List.mem_cons_self d ds, hl, h1⟩
      · cases hr : recur (setCell g r c d) with
        | none => rw [hr] at h1; simp at h1
        | some res =>
          obtain ⟨b, s⟩ := res
          cases b with
          | true => rw [hr] at h1; simp at h1
          | false =>
            rw [hr] at h1
            have hs : s = setCell g r c d := hrec _ _ hr
            subst hs
            obtain ⟨e, he, hle, hxe⟩ := ih d x h1
            exact ⟨e, List.mem_cons_of_mem d he, hle, hxe⟩
    · rw [if_neg hl] at hx
      obtain ⟨e, he, hle, hxe⟩ := ih v x hx
      exact ⟨e, List.mem_cons_of_mem d he, hle, hxe⟩

/-- The loop applies its callee only to the arrays listed by `guess_loop_calls`:
two callees that agree on them give the same loop result. -/
theorem guess_loop_congr_calls {rec1 rec2 : sudoku_grid_t → Option (Bool × sudoku_grid_t)}
    (r c : Fin 9) (ds : List Int) :
    ∀ (s : sudoku_grid_t), (∀ x ∈ guess_loop_calls rec1 r c ds s, rec1 x = rec2 x) →
      guess_loop rec1 r c ds s = guess_loop rec2 r c ds s := by
  induction ds with
  | nil =>
    intro s _
    rfl
  | cons d ds ih =>
    intro s h
    rw [guess_loop, guess_loop]
    rw [guess_loop_calls] at h
    by_cases hl : is_legal s d r c = true
    · rw [if_pos hl] at h
      rw [if_pos hl, if_pos hl, ← h _ (List.mem_cons_self _ _)]
      cases hr : rec1 (setCell s r c d) with
      | none => rfl
      | some res =>
        obtain ⟨b, s2⟩ := res
        cases b with
        | true => rfl
        | false =>
          apply ih
          intro x hx
          apply h
          rw [hr]
          exact List.mem_cons_of_mem _ hx
    · rw [if_neg hl] at h
      rw [if_neg hl, if_neg hl]
      exact ih s h

/-! ## Unfolding one level of `solve_sudoku` -/

theorem solve_sudoku_full (fuel : Nat) (g : sudoku_grid_t) (h : next_empty g = none) :
    solve_sudoku (fuel + 1) g = some (true, g) := by
  rw [solve_sudoku, h]

theorem solve_sudoku_step (fuel : Nat) (g : sudoku_grid_t) (r c : Fin 9)
    (h : next_empty g = some (r, c)) :
    solve_sudoku (fuel + 1) g =
      guess_loop (solve_sudoku fuel) r c guesses (setCell g r c EMPTY) := by
  rw [solve_sudoku, h, setCell_cell_self g r c EMPTY (next_empty_eq_some g r c h).1]

/-- A call that answers `false` leaves the array exactly as it found it. -/
theorem solve_sudoku_restores :
    ∀ (fuel : Nat) (g out : sudoku_grid_t), solve_sudoku fuel g = some (false, out) → out = g := by
  intro fuel
  induction fuel with
  | zero =>
    intro g out h
    simp [solve_sudoku] at h
  | succ fuel ih =>
    intro g out h
    cases hn : next_empty g with
    | none =>
      rw [solve_sudoku_full fuel g hn] at h
      simp at h
    | some p =>
      obtain ⟨r, c⟩ := p
      rw [solve_sudoku_step fuel g r c hn] at h
      rw [(guess_loop_false (ih) g r c guesses EMPTY out h).1]
      exact setCell_cell_self g r c EMPTY (next_empty_eq_some g r c hn).1

theorem solve_sudoku_false_cases (fuel : Nat) (g out : sudoku_grid_t)
    (h : solve_sudoku (fuel + 1) g = some (false, out)) :
    ∃ r c, next_empty g = some (r, c) ∧
      ∀ d ∈ guesses, is_legal g d r c = true →
        solve_sudoku fuel (setCell g r c d) = some (false, setCell g r c d) := by
  cases hn : next_empty g with
  | none =>
    rw [solve_sudoku_full fuel g hn] at h
    simp at h
  | some p =>
    obtain ⟨r, c⟩ := p
    rw [solve_sudoku_step fuel g r c hn] at h
    exact ⟨r, c, rfl, (guess_loop_false (solve_sudoku_restores fuel) g r c guesses EMPTY out h).2⟩

theorem solve_sudoku_true_cases (fuel : Nat) (g out : sudoku_grid_t)
    (h : solve_sudoku (fuel + 1) g = some (true, out)) :
    (next_empty g = none ∧ out = g) ∨
    ∃ r c pre d post, next_empty g = some (r, c) ∧ guesses = pre ++ d :: post ∧
      is_legal g d r c = true ∧ solve_sudoku fuel (setCell g r c d) = some (true, out) ∧
      ∀ e ∈ pre, is_legal g e r c = true →
        solve_sudoku fuel (setCell g r c e) = some (false, setCell g r c e) := by
  cases hn : next_empty g with
  | none =>
    rw [solve_sudoku_full fuel g hn] at h
    left
    exact ⟨rfl, by simpa using h.symm⟩
  | some p =>
    obtain ⟨r, c⟩ := p
    rw [solve_sudoku_step fuel g r c hn] at h
    right
    obtain ⟨pre, d, post, h1, h2, h3, h4⟩ :=
      guess_loop_true (solve_sudoku_restores fuel) g r c guesses EMPTY out h
    exact ⟨r, c, pre, d, post, rfl, h1, h2, h3, h4⟩


/-! ## Valid grids -/

theorem mem_digits_iff (x : Int) : x ∈ digits ↔ 1 ≤ x ∧ x ≤ 9 := by
  simp only [digits, List.mem_cons, List.mem_singleton, List.not_mem_nil, or_false]
  omega

theorem mem_guesses_iff (x : Int) : x ∈ guesses ↔ 1 ≤ x ∧ x ≤ 9 := mem_digits_iff x

/-- Nine values are a permutation of `1..9` exactly when they are pairwise
different and all in `1..9`. -/
theorem unit_perm_iff (f : Fin 9 → Int) :
    ((List.finRange 9).map f).Perm digits ↔
      Function.Injective f ∧ ∀ k, 1 ≤ f k ∧ f k ≤ 9 := by
  constructor
  · intro h
    have hnd : ((List.finRange 9).map f).Nodup := h.nodup_iff.2 (by decide)
    refine ⟨?_, ?_⟩
    · intro x y hxy
      exact List.inj_on_of_nodup_map hnd (List.mem_finRange x) (List.mem_finRange y) hxy
    · intro k
      rw [← mem_digits_iff]
      exact h.subset (List.mem_map.2 ⟨k, List.mem_finRange k, rfl⟩)
  · rintro ⟨hinj, hr⟩
    have hnd : ((List.finRange 9).map f).Nodup := (List.nodup_finRange 9).map hinj
    have hsub : (List.finRange 9).map f ⊆ digits := by
      intro x hx
      obtain ⟨k, _, hk⟩ := List.mem_map.1 hx
      rw [← hk, mem_digits_iff]
      exact hr k
    exact (List.subperm_of_subset hnd hsub).perm_of_length_le (by simp [digits])

/-- The cells of a block, indexed by their position `k = 3x + y` in it. -/
theorem blockList_eq (g : sudoku_grid_t) (a b : Fin 3) :
    blockList g a b = (List.finRange 9).map fun k : Fin 9 =>
      cell g (blockCell a ⟨k.val / 3, by have := k.isLt; omega⟩)
        (blockCell b ⟨k.val % 3, by omega⟩) := by
  rfl

theorem blockCell_val (a x : Fin 3) : (blockCell a x).val = 3 * a.val + x.val := rfl

/-- A grid is valid exactly when every cell is in `1..9` and no two distinct
cells of a common row, column or block hold the same value. -/
theorem valid_iff (g : sudoku_grid_t) :
    valid g ↔ (∀ i j, 1 ≤ cell g i j ∧ cell g i j ≤ 9) ∧
      ∀ i j i2 j2 : Fin 9, (i, j) ≠ (i2, j2) → sameUnit i j i2 j2 →
        cell g i j ≠ cell g i2 j2 := by
  unfold valid rowList colList
  simp only [blockList_eq, unit_perm_iff]
  constructor
  · rintro ⟨hrow, hcol, hblk⟩
    refine ⟨fun i j => (hrow i).2 j, ?_⟩
    intro i j i2 j2 hne hu heq
    rcases hu with h | h | ⟨h1, h2⟩
    · subst h
      have := (hrow i).1 heq
      exact hne (by rw [this])
    · subst h
      have := (hcol j).1 heq
      exact hne (by rw [this])
    · have hi := i.isLt
      have hj := j.isLt
      have hi2 := i2.isLt
      have hj2 := j2.isLt
      have key := @(hblk ⟨i.val / 3, by omega⟩ ⟨j.val / 3, by omega⟩).1
        ⟨3 * (i.val % 3) + j.val % 3, by omega⟩ ⟨3 * (i2.val % 3) + j2.val % 3, by omega⟩
      have e1 : blockCell (⟨i.val / 3, by omega⟩ : Fin 3)
          ⟨(3 * (i.val % 3) + j.val % 3) / 3, by omega⟩ = i := by
        apply Fin.ext; simp only [blockCell_val]; omega
      have e2 : blockCell (⟨j.val / 3, by omega⟩ : Fin 3)
          ⟨(3 * (i.val % 3) + j.val % 3) % 3, by omega⟩ = j := by
        apply Fin.ext; simp only [blockCell_val]; omega
      have e3 : blockCell (⟨i.val / 3, by omega⟩ : Fin 3)
          ⟨(3 * (i2.val % 3) + j2.val % 3) / 3, by omega⟩ = i2 := by
        apply Fin.ext; simp only [blockCell_val]; omega
      have e4 : blockCell (⟨j.val / 3, by omega⟩ : Fin 3)
          ⟨(3 * (i2.val % 3) + j2.val % 3) % 3, by omega⟩ = j2 := by
        apply Fin.ext; simp only [blockCell_val]; omega
      simp only [e1, e2, e3, e4] at key
      have hk := Fin.val_eq_of_eq (key heq)
      simp only at hk
      apply hne
      have e5 : i = i2 := by apply Fin.ext; omega
      have e6 : j = j2 := by apply Fin.ext; omega
      rw [e5, e6]
  · rintro ⟨hr, hd⟩
    refine ⟨?_, ?_, ?_⟩
    · intro i
      refine ⟨?_, fun k => hr i k⟩
      intro x y hxy
      by_contra hne
      exact hd i x i y (fun hc => hne (congrArg Prod.snd hc)) (Or.inl rfl) hxy
    · intro j
      refine ⟨?_, fun k => hr k j⟩
      intro x y hxy
      by_contra hne
      exact hd x j y j (fun hc => hne (congrArg Prod.fst hc)) (Or.inr (Or.inl rfl)) hxy
    · intro a b
      refine ⟨?_, fun k => hr _ _⟩
      intro x y hxy
      by_contra hne
      have hx := x.isLt
      have hy := y.isLt
      have ha := a.isLt
      have hb := b.isLt
      have hv : x.val ≠ y.val := fun hc => hne (Fin.ext hc)
      refine hd _ _ _ _ ?_ (Or.inr (Or.inr ?_)) hxy
      · intro hc
        have h1 := Fin.val_eq_of_eq (congrArg Prod.fst hc)
        have h2 := Fin.val_eq_of_eq (congrArg Prod.snd hc)
        simp only [blockCell_val] at h1 h2
        omega
      · simp only [blockCell_val]
        omega


/-! ## Counting empty cells -/

theorem countEmpty_le (g : sudoku_grid_t) : countEmpty g ≤ 81 := by
  unfold countEmpty
  calc (Finset.univ.filter fun p : Fin 9 × Fin 9 => cell g p.1 p.2 = EMPTY).card
      ≤ (Finset.univ : Finset (Fin 9 × Fin 9)).card := Finset.card_filter_le _ _
    _ = 81 := by simp

/-- Writing a non-zero value into an empty cell removes exactly one empty cell. -/
theorem countEmpty_setCell (g : sudoku_grid_t) (r c : Fin 9) (d : Int)
    (h0 : cell g r c = EMPTY) (hd : d ≠ EMPTY) :
    countEmpty (setCell g r c d) + 1 = countEmpty g := by
  unfold countEmpty
  have hmem : (r, c) ∈ Finset.univ.filter fun p : Fin 9 × Fin 9 => cell g p.1 p.2 = EMPTY := by
    simp [h0]
  have heq : (Finset.univ.filter fun p : Fin 9 × Fin 9 => cell (setCell g r c d) p.1 p.2 = EMPTY)
      = (Finset.univ.filter fun p : Fin 9 × Fin 9 => cell g p.1 p.2 = EMPTY).erase (r, c) := by
    ext p
    obtain ⟨i, j⟩ := p
    simp only [Finset.mem_filter, Finset.mem_univ, true_and, Finset.mem_erase, ne_eq,
      Prod.mk.injEq, cell_setCell]
    by_cases hij : i = r ∧ j = c
    · simp [hij, hd]
    · simp [hij]
  rw [heq, Finset.card_erase_of_mem hmem]
  have := Finset.card_pos.2 ⟨_, hmem⟩
  omega

/-! ## Termination -/

theorem solve_sudoku_isSome :
    ∀ (fuel : Nat) (g : sudoku_grid_t), countEmpty g < fuel →
      ∃ res, solve_sudoku fuel g = some res := by
  intro fuel
  induction fuel with
  | zero =>
    intro g h
    exact absurd h (Nat.not_lt_zero _)
  | succ fuel ih =>
    intro g h
    cases hn : next_empty g with
    | none => exact ⟨_, solve_sudoku_full fuel g hn⟩
    | some p =>
      obtain ⟨r, c⟩ := p
      rw [solve_sudoku_step fuel g r c hn]
      apply guess_loop_isSome (solve_sudoku_restores fuel)
      intro d hd _
      apply ih
      have hd0 : d ≠ EMPTY := by
        have := (mem_guesses_iff d).1 hd
        show d ≠ 0
        omega
      have := countEmpty_setCell g r c d (next_empty_eq_some g r c hn).1 hd0
      omega

/-- Every array passed to a recursive call is the entry array with a legal
guess written into the first empty cell. -/
theorem solve_sudoku_calls_mem (fuel : Nat) (g x : sudoku_grid_t)
    (hx : x ∈ solve_sudoku_calls fuel g) :
    ∃ r c d, next_empty g = some (r, c) ∧ d ∈ guesses ∧ is_legal g d r c = true ∧
      x = setCell g r c d := by
  cases fuel with
  | zero => simp [solve_sudoku_calls] at hx
  | succ fuel =>
    cases hn : next_empty g with
    | none => simp [solve_sudoku_calls, hn] at hx
    | some p =>
      obtain ⟨r, c⟩ := p
      have h0 := (next_empty_eq_some g r c hn).1
      rw [solve_sudoku_calls, hn] at hx
      simp only at hx
      rw [← setCell_cell_self g r c EMPTY h0] at hx
      obtain ⟨d, hd, hl, hxd⟩ :=
        guess_loop_calls_mem (solve_sudoku_restores fuel) g r c guesses EMPTY x hx
      exact ⟨r, c, d, rfl, hd, hl, hxd⟩

theorem solve_sudoku_calls_count (fuel : Nat) (g : sudoku_grid_t) :
    ∀ x ∈ solve_sudoku_calls fuel g, countEmpty x + 1 = countEmpty g := by
  intro x hx
  obtain ⟨r, c, d, hn, hd, _, hxd⟩ := solve_sudoku_calls_mem fuel g x hx
  rw [hxd]
  apply countEmpty_setCell g r c d (next_empty_eq_some g r c hn).1
  have := (mem_guesses_iff d).1 hd
  show d ≠ 0
  omega

/-! ## What a successful call leaves behind -/

theorem agrees_refl (g : sudoku_grid_t) : agrees g g := fun _ _ _ => rfl

theorem agrees_of_setCell (g s : sudoku_grid_t) (r c : Fin 9) (d : Int)
    (h0 : cell g r c = EMPTY) (h : agrees (setCell g r c d) s) : agrees g s := by
  intro i j hij
  have hne : ¬ (i = r ∧ j = c) := by
    rintro ⟨h1, h2⟩
    subst h1; subst h2
    exact hij h0
  have := h i j (by rw [cell_setCell_ne _ _ _ _ _ _ hne]; exact hij)
  rw [this, cell_setCell_ne _ _ _ _ _ _ hne]

theorem solve_sudoku_agrees :
    ∀ (fuel : Nat) (g out : sudoku_grid_t), solve_sudoku fuel g = some (true, out) →
      agrees g out := by
  intro fuel
  induction fuel with
  | zero =>
    intro g out h
    simp [solve_sudoku] at h
  | succ fuel ih =>
    intro g out h
    rcases solve_sudoku_true_cases fuel g out h with ⟨_, h2⟩ | ⟨r, c, pre, d, post, hn, _, _, hs, _⟩
    · rw [h2]; exact agrees_refl g
    · exact agrees_of_setCell g out r c d (next_empty_eq_some g r c hn).1 (ih _ _ hs)

/-- Every array passed to a recursive call keeps the filled cells of the entry
array. -/
theorem solve_sudoku_calls_agrees (fuel : Nat) (g : sudoku_grid_t) :
    ∀ x ∈ solve_sudoku_calls fuel g, agrees g x := by
  intro x hx
  obtain ⟨r, c, d, hn, _, _, hxd⟩ := solve_sudoku_calls_mem fuel g x hx
  rw [hxd]
  exact agrees_of_setCell g _ r c d (next_empty_eq_some g r c hn).1 (agrees_refl _)

theorem solve_sudoku_full_of_true :
    ∀ (fuel : Nat) (g out : sudoku_grid_t), solve_sudoku fuel g = some (true, out) →
      full out := by
  intro fuel
  induction fuel with
  | zero =>
    intro g out h
    simp [solve_sudoku] at h
  | succ fuel ih =>
    intro g out h
    rcases solve_sudoku_true_cases fuel g out h with ⟨h1, h2⟩ | ⟨r, c, pre, d, post, _, _, _, hs, _⟩
    · rw [h2]; exact (next_empty_eq_none g).1 h1
    · exact ih _ _ hs

theorem sameUnit_symm {i j i2 j2 : Fin 9} (h : sameUnit i j i2 j2) : sameUnit i2 j2 i j := by
  rcases h with h | h | ⟨h1, h2⟩
  · exact Or.inl h.symm
  · exact Or.inr (Or.inl h.symm)
  · exact Or.inr (Or.inr ⟨h1.symm, h2.symm⟩)

/-- What `is_legal` checks, in terms of `sameUnit`. -/
theorem is_legal_iff_sameUnit (g : sudoku_grid_t) (d : Int) (row col : Fin 9) :
    is_legal g d row col = true ↔
      ∀ i j : Fin 9, (i, j) ≠ (row, col) → sameUnit i j row col → cell g i j ≠ d := by
  rw [is_legal_iff]
  constructor
  · intro h i j hne hu
    apply h i j hne
    rcases hu with h1 | h1 | ⟨h1, h2⟩
    · exact Or.inl h1
    · exact Or.inr (Or.inl h1)
    · right; right
      have := i.isLt
      have := j.isLt
      omega
  · intro h i j hne hu
    apply h i j hne
    rcases hu with h1 | h1 | h1
    · exact Or.inl h1
    · exact Or.inr (Or.inl h1)
    · right; right
      have := i.isLt
      have := j.isLt
      constructor <;> omega

theorem consistent_setCell (g : sudoku_grid_t) (r c : Fin 9) (d : Int)
    (hc : consistent g) (hl : is_legal g d r c = true) :
    consistent (setCell g r c d) := by
  rw [is_legal_iff_sameUnit] at hl
  intro i j i2 j2 hne hu hnz
  by_cases h1 : i = r ∧ j = c
  · obtain ⟨e1, e2⟩ := h1
    subst e1; subst e2
    have h2 : ¬ (i2 = i ∧ j2 = j) := fun hh => hne (by rw [hh.1, hh.2])
    rw [cell_setCell_same, cell_setCell_ne _ _ _ _ _ _ h2]
    exact fun hh => hl i2 j2 (fun hh2 => hne hh2.symm) (sameUnit_symm hu) hh.symm
  · rw [cell_setCell_ne _ _ _ _ _ _ h1] at hnz ⊢
    by_cases h2 : i2 = r ∧ j2 = c
    · obtain ⟨e1, e2⟩ := h2
      subst e1; subst e2
      rw [cell_setCell_same]
      exact hl i j hne hu
    · rw [cell_setCell_ne _ _ _ _ _ _ h2]
      exact hc i j i2 j2 hne hu hnz

theorem inRange_setCell (g : sudoku_grid_t) (r c : Fin 9) (d : Int)
    (hr : inRange g) (hd : d ∈ guesses) : inRange (setCell g r c d) := by
  intro i j
  rw [cell_setCell]
  split
  · have := (mem_guesses_iff d).1 hd
    omega
  · exact hr i j

theorem solve_sudoku_consistent :
    ∀ (fuel : Nat) (g out : sudoku_grid_t), solve_sudoku fuel g = some (true, out) →
      consistent g → inRange g → consistent out ∧ inRange out := by
  intro fuel
  induction fuel with
  | zero =>
    intro g out h
    simp [solve_sudoku] at h
  | succ fuel ih =>
    intro g out h hc hr
    rcases solve_sudoku_true_cases fuel g out h with ⟨_, h2⟩ | ⟨r, c, pre, d, post, _, hg, hl, hs, _⟩
    · rw [h2]; exact ⟨hc, hr⟩
    · have hd : d ∈ guesses := by rw [hg]; simp
      exact ih _ _ hs (consistent_setCell g r c d hc hl) (inRange_setCell g r c d hr hd)

theorem valid_of_consistent (g : sudoku_grid_t) (hc : consistent g) (hf : full g)
    (hr : inRange g) : valid g := by
  rw [valid_iff]
  refine ⟨?_, ?_⟩
  · intro i j
    have h1 := hr i j
    have h2 : cell g i j ≠ 0 := hf i j
    omega
  · intro i j i2 j2 hne hu
    exact hc i j i2 j2 hne hu (hf i j)

theorem consistent_of_solutionOf (g s : sudoku_grid_t) (h : solutionOf g s) : consistent g := by
  obtain ⟨hv, ha⟩ := h
  rw [valid_iff] at hv
  intro i j i2 j2 hne hu hnz heq
  have h1 := ha i j hnz
  have h2 := ha i2 j2 (by rw [← heq]; exact hnz)
  exact hv.2 i j i2 j2 hne hu (by rw [h1, h2, heq])

theorem inRange_of_solutionOf (g s : sudoku_grid_t) (h : solutionOf g s) : inRange g := by
  obtain ⟨hv, ha⟩ := h
  rw [valid_iff] at hv
  intro i j
  by_cases h0 : cell g i j = EMPTY
  · rw [h0]; decide
  · have := hv.1 i j
    rw [ha i j h0] at this
    omega

/-- A successful call on a consistent grid with cells in `[0, 9]` leaves a
valid solution of the input. -/
theorem solve_sudoku_sound (fuel : Nat) (g out : sudoku_grid_t)
    (h : solve_sudoku fuel g = some (true, out)) (hc : consistent g) (hr : inRange g) :
    solutionOf g out := by
  obtain ⟨h1, h2⟩ := solve_sudoku_consistent fuel g out h hc hr
  exact ⟨valid_of_consistent out h1 (solve_sudoku_full_of_true fuel g out h) h2,
    solve_sudoku_agrees fuel g out h⟩


/-! ## Completeness and the canonical solution -/

theorem solution_mem_guesses (s : sudoku_grid_t) (hv : valid s) (r c : Fin 9) :
    cell s r c ∈ guesses := by
  rw [mem_guesses_iff]
  exact ((valid_iff s).1 hv).1 r c

/-- The digit a solution holds at an empty cell of the puzzle is a legal guess there. -/
theorem is_legal_of_solutionOf (g s : sudoku_grid_t) (r c : Fin 9) (h : solutionOf g s) :
    is_legal g (cell s r c) r c = true := by
  obtain ⟨hv, ha⟩ := h
  rw [valid_iff] at hv
  rw [is_legal_iff_sameUnit]
  intro i j hne hu heq
  have h1 := hv.1 r c
  have hnz : cell g i j ≠ EMPTY := by
    rw [heq]
    show cell s r c ≠ 0
    omega
  exact hv.2 i j r c hne hu (by rw [ha i j hnz, heq])

theorem solutionOf_setCell (g s : sudoku_grid_t) (r c : Fin 9) (h : solutionOf g s) :
    solutionOf (setCell g r c (cell s r c)) s := by
  refine ⟨h.1, ?_⟩
  intro i j hij
  rw [cell_setCell] at hij ⊢
  split
  · next hh => rw [hh.1, hh.2]
  · next hh =>
    rw [if_neg hh] at hij
    exact h.2 i j hij

/-- A call that answers `false` was made on a puzzle without solution. -/
theorem solve_sudoku_complete :
    ∀ (fuel : Nat) (g out : sudoku_grid_t), solve_sudoku fuel g = some (false, out) →
      ∀ s, ¬ solutionOf g s := by
  intro fuel
  induction fuel with
  | zero =>
    intro g out h
    simp [solve_sudoku] at h
  | succ fuel ih =>
    intro g out h s hs
    obtain ⟨r, c, _, hall⟩ := solve_sudoku_false_cases fuel g out h
    have := hall (cell s r c) (solution_mem_guesses s hs.1 r c) (is_legal_of_solutionOf g s r c hs)
    exact ih _ _ this s (solutionOf_setCell g s r c hs)

theorem guesses_sorted : List.Pairwise (· < ·) guesses := by
  simp [guesses]

/-- The grid a successful call leaves is, among the solutions of the input,
the least one in row-major lexicographic order. -/
theorem solve_sudoku_least :
    ∀ (fuel : Nat) (g out : sudoku_grid_t), solve_sudoku fuel g = some (true, out) →
      ∀ s, solutionOf g s → out = s ∨ lexLt out s := by
  intro fuel
  induction fuel with
  | zero =>
    intro g out h
    simp [solve_sudoku] at h
  | succ fuel ih =>
    intro g out h s hs
    rcases solve_sudoku_true_cases fuel g out h with
      ⟨h1, h2⟩ | ⟨r, c, pre, d, post, hn, hg, hl, hrec, hpre⟩
    · left
      rw [h2]
      apply grid_ext
      intro i j
      exact (hs.2 i j ((next_empty_eq_none g).1 h1 i j)).symm
    · obtain ⟨h0, hbefore⟩ := next_empty_eq_some g r c hn
      have hmem : cell s r c ∈ pre ++ d :: post := by
        rw [← hg]
        exact solution_mem_guesses s hs.1 r c
      have hleg := is_legal_of_solutionOf g s r c hs
      have hsol := solutionOf_setCell g s r c hs
      rcases List.mem_append.1 hmem with hm | hm
      · exact absurd hsol (solve_sudoku_complete fuel _ _ (hpre _ hm hleg) s)
      · rcases List.mem_cons.1 hm with hm2 | hm2
        · rw [hm2] at hsol
          exact ih _ _ hrec s hsol
        · right
          have hsorted : List.Pairwise (· < ·) (pre ++ d :: post) := by
            rw [← hg]
            exact guesses_sorted
          have hlt : d < cell s r c :=
            (List.pairwise_cons.1 (List.pairwise_append.1 hsorted).2.1).1 _ hm2
          have hd : d ∈ guesses := by rw [hg]; simp
          have hdnz : d ≠ EMPTY := by
            have := (mem_guesses_iff d).1 hd
            show d ≠ 0
            omega
          have hout : cell out r c = d := by
            have := solve_sudoku_agrees fuel _ _ hrec r c
              (by rw [cell_setCell_same]; exact hdnz)
            rw [this, cell_setCell_same]
          refine ⟨r, c, by rw [hout]; exact hlt, ?_⟩
          intro i j hij
          have hnz := hbefore i j hij
          rw [solve_sudoku_agrees (fuel + 1) g out h i j hnz, hs.2 i j hnz]


/-- The order `lexLt` is asymmetric. -/
theorem lexLt_asymm (a b : sudoku_grid_t) (h1 : lexLt a b) : ¬ lexLt b a := by
  rintro ⟨r2, c2, hlt2, heq2⟩
  obtain ⟨r, c, hlt, heq⟩ := h1
  by_cases hA : rowMajorLt r c r2 c2
  · have := heq2 r c hA
    omega
  · by_cases hB : rowMajorLt r2 c2 r c
    · have := heq r2 c2 hB
      omega
    · have hr : r = r2 := by
        unfold rowMajorLt at hA hB
        apply Fin.ext
        have h3 : ¬ r < r2 := fun hh => hA (Or.inl hh)
        have h4 : ¬ r2 < r := fun hh => hB (Or.inl hh)
        simp only [Fin.lt_def] at h3 h4
        omega
      subst hr
      have hc : c = c2 := by
        unfold rowMajorLt at hA hB
        apply Fin.ext
        have h3 : ¬ c < c2 := fun hh => hA (Or.inr ⟨rfl, hh⟩)
        have h4 : ¬ c2 < c := fun hh => hB (Or.inr ⟨rfl, hh⟩)
        simp only [Fin.lt_def] at h3 h4
        omega
      subst hc
      omega

/-! ## Puzzles with at most one blank per row, and a puzzle without solution -/

theorem row_sum_of_valid (s : sudoku_grid_t) (hs : valid s) (i : Fin 9) :
    ∑ j : Fin 9, cell s i j = 45 := by
  rw [Fin.sum_univ_def]
  exact (hs.1 i).sum_eq

/-- A solution of a puzzle that has at most one empty cell in each row is the
only solution of that puzzle. -/
theorem unique_of_single_blanks (g s : sudoku_grid_t) (hs : solutionOf g s)
    (hrow : ∀ i j j2 : Fin 9, cell g i j = EMPTY → j2 ≠ j → cell g i j2 ≠ EMPTY) :
    ∀ t, solutionOf g t → t = s := by
  intro t ht
  apply grid_ext
  intro i j
  by_cases h0 : cell g i j = EMPTY
  · have h1 := row_sum_of_valid s hs.1 i
    have h2 := row_sum_of_valid t ht.1 i
    rw [← Finset.add_sum_erase Finset.univ _ (Finset.mem_univ j)] at h1 h2
    have h3 : ∑ x ∈ Finset.univ.erase j, cell t i x = ∑ x ∈ Finset.univ.erase j, cell s i x := by
      apply Finset.sum_congr rfl
      intro x hx
      have hne := hrow i j x h0 (Finset.ne_of_mem_erase hx)
      rw [ht.2 i x hne, hs.2 i x hne]
    omega
  · rw [ht.2 i j h0, hs.2 i j h0]

theorem deadEndPuzzle_unsolvable : ∀ s, ¬ solutionOf deadEndPuzzle s := by
  intro s hs
  have hv := (valid_iff s).1 hs.1
  have hr := hv.1 0 8
  have e0 : cell s 0 0 = 1 := hs.2 0 0 (by decide)
  have e1 : cell s 0 1 = 2 := hs.2 0 1 (by decide)
  have e2 : cell s 0 2 = 3 := hs.2 0 2 (by decide)
  have e3 : cell s 0 3 = 4 := hs.2 0 3 (by decide)
  have e4 : cell s 0 4 = 5 := hs.2 0 4 (by decide)
  have e5 : cell s 0 5 = 6 := hs.2 0 5 (by decide)
  have e6 : cell s 0 6 = 7 := hs.2 0 6 (by decide)
  have e7 : cell s 3 8 = 9 := hs.2 3 8 (by decide)
  have e8 : cell s 4 8 = 8 := hs.2 4 8 (by decide)
  have d0 := hv.2 0 8 0 0 (by decide) (Or.inl rfl)
  have d1 := hv.2 0 8 0 1 (by decide) (Or.inl rfl)
  have d2 := hv.2 0 8 0 2 (by decide) (Or.inl rfl)
  have d3 := hv.2 0 8 0 3 (by decide) (Or.inl rfl)
  have d4 := hv.2 0 8 0 4 (by decide) (Or.inl rfl)
  have d5 := hv.2 0 8 0 5 (by decide) (Or.inl rfl)
  have d6 := hv.2 0 8 0 6 (by decide) (Or.inl rfl)
  have d7 := hv.2 0 8 3 8 (by decide) (Or.inr (Or.inl rfl))
  have d8 := hv.2 0 8 4 8 (by decide) (Or.inr (Or.inl rfl))
  omega

theorem dupRowPuzzle_unsolvable : ∀ s, ¬ solutionOf dupRowPuzzle s := by
  intro s hs
  have hv := (valid_iff s).1 hs.1
  have e0 : cell s 0 0 = 5 := hs.2 0 0 (by decide)
  have e1 : cell s 0 1 = 5 := hs.2 0 1 (by decide)
  have d0 := hv.2 0 0 0 1 (by decide) (Or.inl rfl)
  omega


/-! ## The result does not depend on the fuel -/

theorem guess_loop_mono {rec1 rec2 : sudoku_grid_t → Option (Bool × sudoku_grid_t)}
    (hsub : ∀ x res, rec1 x = some res → rec2 x = some res) (r c : Fin 9) (ds : List Int) :
    ∀ (s : sudoku_grid_t) (res : Bool × sudoku_grid_t),
      guess_loop rec1 r c ds s = some res → guess_loop rec2 r c ds s = some res := by
  induction ds with
  | nil =>
    intro s res h
    exact h
  | cons d ds ih =>
    intro s res h
    rw [guess_loop] at h ⊢
    by_cases hl : is_legal s d r c = true
    · rw [if_pos hl] at h ⊢
      cases h1 : rec1 (setCell s r c d) with
      | none => rw [h1] at h; exact absurd h (by simp)
      | some p =>
        rw [h1] at h
        rw [hsub _ _ h1]
        obtain ⟨b, s2⟩ := p
        cases b with
        | true => exact h
        | false => exact ih s2 res h
    · rw [if_neg hl] at h ⊢
      exact ih s res h

theorem solve_sudoku_mono :
    ∀ (fuel : Nat) (g : sudoku_grid_t) (res : Bool × sudoku_grid_t),
      solve_sudoku fuel g = some res → solve_sudoku (fuel + 1) g = some res := by
  intro fuel
  induction fuel with
  | zero =>
    intro g res h
    simp [solve_sudoku] at h
  | succ fuel ih =>
    intro g res h
    cases hn : next_empty g with
    | none =>
      rw [solve_sudoku_full fuel g hn] at h
      rw [solve_sudoku_full (fuel + 1) g hn]
      exact h
    | some p =>
      obtain ⟨r, c⟩ := p
      rw [solve_sudoku_step fuel g r c hn] at h
      rw [solve_sudoku_step (fuel + 1) g r c hn]
      exact guess_loop_mono ih r c guesses _ res h

theorem solve_sudoku_fuel_le (fuel fuel2 : Nat) (hle : fuel ≤ fuel2) (g : sudoku_grid_t)
    (res : Bool × sudoku_grid_t) (h : solve_sudoku fuel g = some res) :
    solve_sudoku fuel2 g = some res := by
  induction hle with
  | refl => exact h
  | step _ ih => exact solve_sudoku_mono _ g res ih

/-- With enough fuel a call on a puzzle that has a solution answers `true`. -/
theorem solve_sudoku_true_of_solution (g s : sudoku_grid_t) (hs : solutionOf g s) (fuel : Nat)
    (hf : countEmpty g < fuel) : ∃ out, solve_sudoku fuel g = some (true, out) := by
  obtain ⟨⟨b, out⟩, h⟩ := solve_sudoku_isSome fuel g hf
  cases b with
  | true => exact ⟨out, h⟩
  | false => exact absurd hs (solve_sudoku_complete fuel g out h s)

/-! ## The claims -/

/-- C1, the failing input.  The grid `dupRowPuzzle` has all cells in `[0, 9]`, two
5s in its first row and one empty cell; `solve_sudoku` fills that cell and
returns true, although the first row of the grid it leaves is not a
permutation of `1..9`: the puzzle has not been solved. -/
theorem solve_sudoku_true_not_valid :
    inRange dupRowPuzzle ∧ solve_sudoku 82 dupRowPuzzle = some (true, dupRowFilled) ∧
      ¬ (rowList dupRowFilled 0).Perm digits ∧ ¬ valid dupRowFilled := by
  decide

/-- What a true answer does guarantee on a grid with cells in `[0, 9]`: the grid
left has no empty cell, and when no two distinct filled cells of the input
that share a row, a column or a block hold the same digit, every row, column
and block of it is a permutation of `1..9`. -/
theorem solve_sudoku_true_result (fuel : Nat) (g out : sudoku_grid_t) (hr : inRange g)
    (h : solve_sudoku fuel g = some (true, out)) :
    full out ∧ (consistent g → valid out) :=
  ⟨solve_sudoku_full_of_true fuel g out h, fun hc => (solve_sudoku_sound fuel g out h hc hr).1⟩

theorem solve_sudoku_true_result_witness :
    inRange nearPuzzle ∧ solve_sudoku 82 nearPuzzle = some (true, solvedGrid) ∧
      consistent nearPuzzle ∧ full solvedGrid ∧ valid solvedGrid :=
  have hc : consistent nearPuzzle := by decide
  have h := solve_sudoku_true_result 82 nearPuzzle solvedGrid (by decide) (by decide)
  ⟨by decide, by decide, hc, h.1, h.2 hc⟩

/-- C2.  For every input grid (cells in `[0, 9]`) that has exactly one valid
solution `s` (a grid whose rows, columns and blocks are permutations of `1..9`
and which agrees with the input on every filled cell), `solve_sudoku`, given
more fuel than there are empty cells, returns true and leaves the grid `s`. -/
theorem solve_sudoku_unique (g s : sudoku_grid_t) (_hr : inRange g) (hs : solutionOf g s)
    (huniq : ∀ t, solutionOf g t → t = s) (fuel : Nat) (hf : countEmpty g < fuel) :
    solve_sudoku fuel g = some (true, s) := by
  obtain ⟨out, h⟩ := solve_sudoku_true_of_solution g s hs fuel hf
  have hsol := solve_sudoku_sound fuel g out h (consistent_of_solutionOf g s hs)
    (inRange_of_solutionOf g s hs)
  rw [h, huniq out hsol]

theorem solve_sudoku_unique_witness :
    inRange nearPuzzle ∧ solutionOf nearPuzzle solvedGrid ∧
      (∀ t, solutionOf nearPuzzle t → t = solvedGrid) ∧ countEmpty nearPuzzle < 82 ∧
      solve_sudoku 82 nearPuzzle = some (true, solvedGrid) :=
  have hs : solutionOf nearPuzzle solvedGrid := by decide
  have hu : ∀ t, solutionOf nearPuzzle t → t = solvedGrid :=
    unique_of_single_blanks nearPuzzle solvedGrid hs (by decide)
  ⟨by decide, hs, hu, by decide,
    solve_sudoku_unique nearPuzzle solvedGrid (by decide) hs hu 82 (by decide)⟩

/-- C3.  For every input grid (cells in `[0, 9]`) that has more than one valid
solution agreeing with its filled cells, `solve_sudoku`, given more fuel than
there are empty cells, returns true and the resulting grid is a valid solution
of the input that is lexicographically smaller, cells compared in row-major
order, than every other valid solution of the input. -/
theorem solve_sudoku_canonical (g s1 s2 : sudoku_grid_t) (_hr : inRange g)
    (h1 : solutionOf g s1) (_h2 : solutionOf g s2) (_hne : s1 ≠ s2) (fuel : Nat)
    (hf : countEmpty g < fuel) :
    ∃ out, solve_sudoku fuel g = some (true, out) ∧ solutionOf g out ∧
      ∀ t, solutionOf g t → t ≠ out → lexLt out t := by
  obtain ⟨out, h⟩ := solve_sudoku_true_of_solution g s1 h1 fuel hf
  refine ⟨out, h, solve_sudoku_sound fuel g out h (consistent_of_solutionOf g s1 h1)
    (inRange_of_solutionOf g s1 h1), ?_⟩
  intro t ht hne
  rcases solve_sudoku_least fuel g out h t ht with h3 | h3
  · exact absurd h3.symm hne
  · exact h3

theorem solve_sudoku_canonical_witness :
    inRange twoWayPuzzle ∧ solutionOf twoWayPuzzle solvedGrid ∧
      solutionOf twoWayPuzzle otherSolution ∧ solvedGrid ≠ otherSolution ∧
      countEmpty twoWayPuzzle < 82 ∧
      ∃ out, solve_sudoku 82 twoWayPuzzle = some (true, out) ∧ solutionOf twoWayPuzzle out ∧
        ∀ t, solutionOf twoWayPuzzle t → t ≠ out → lexLt out t :=
  ⟨by decide, by decide, by decide, by decide, by decide,
    solve_sudoku_canonical twoWayPuzzle solvedGrid otherSolution (by decide) (by decide)
      (by decide) (by decide) 82 (by decide)⟩

/-- C4, the failing input.  The grid `dupRowPuzzle` has all cells in `[0, 9]` and no
valid solution (two 5s are already present in its first row), yet
`solve_sudoku` returns true on it. -/
theorem solve_sudoku_true_on_unsolvable :
    inRange dupRowPuzzle ∧ (∀ s, ¬ solutionOf dupRowPuzzle s) ∧
      solve_sudoku 82 dupRowPuzzle = some (true, dupRowFilled) :=
  ⟨by decide, dupRowPuzzle_unsolvable, by decide⟩

/-- Where the false answer is reached: on a grid with cells in `[0, 9]` in which no
two distinct filled cells that share a row, a column or a block hold the same
digit, and for which no valid solution agrees with its filled cells,
`solve_sudoku`, given more fuel than there are empty cells, returns false. -/
theorem solve_sudoku_false_of_unsolvable (g : sudoku_grid_t) (hr : inRange g)
    (hc : consistent g) (hno : ∀ s, ¬ solutionOf g s) (fuel : Nat)
    (hf : countEmpty g < fuel) : ∃ out, solve_sudoku fuel g = some (false, out) := by
  obtain ⟨⟨b, out⟩, h⟩ := solve_sudoku_isSome fuel g hf
  cases b with
  | false => exact ⟨out, h⟩
  | true => exact absurd (solve_sudoku_sound fuel g out h hc hr) (hno out)

theorem solve_sudoku_false_of_unsolvable_witness :
    inRange deadEndPuzzle ∧ consistent deadEndPuzzle ∧ (∀ s, ¬ solutionOf deadEndPuzzle s) ∧
      countEmpty deadEndPuzzle < 82 ∧ ∃ out, solve_sudoku 82 deadEndPuzzle = some (false, out) :=
  have hc : consistent deadEndPuzzle := by decide
  ⟨by decide, hc, deadEndPuzzle_unsolvable, by decide,
    solve_sudoku_false_of_unsolvable deadEndPuzzle (by decide) hc deadEndPuzzle_unsolvable 82
      (by decide)⟩

/-- C5.  For every input grid, if `solve_sudoku` returns false then the grid
afterwards is cell-for-cell equal to the input grid. -/
theorem solve_sudoku_false_restores (fuel : Nat) (g out : sudoku_grid_t)
    (h : solve_sudoku fuel g = some (false, out)) :
    out = g ∧ ∀ i j : Fin 9, cell out i j = cell g i j := by
  have := solve_sudoku_restores fuel g out h
  exact ⟨this, fun i j => by rw [this]⟩

theorem solve_sudoku_false_restores_witness :
    solve_sudoku_calls 82 deadEndPuzzle =
        [setCell deadEndPuzzle 0 7 8, setCell deadEndPuzzle 0 7 9] ∧
      ∃ out, solve_sudoku 82 deadEndPuzzle = some (false, out) ∧ out = deadEndPuzzle ∧
        ∀ i j : Fin 9, cell out i j = cell deadEndPuzzle i j :=
  ⟨by decide, deadEndPuzzle, by decide,
    solve_sudoku_false_restores 82 deadEndPuzzle deadEndPuzzle (by decide)⟩

/-- C6.  For every input grid (cells in `[0, 9]`): if `solve_sudoku` returns false
then no valid solution agrees with the input on its filled cells; and whenever
some valid solution extends the input, `solve_sudoku`, given more fuel than
there are empty cells, returns true. -/
theorem solve_sudoku_false_iff_unsolvable (g : sudoku_grid_t) (_hr : inRange g) :
    (∀ fuel out, solve_sudoku fuel g = some (false, out) → ¬ ∃ s, solutionOf g s) ∧
    ((∃ s, solutionOf g s) → ∀ fuel, countEmpty g < fuel →
      ∃ out, solve_sudoku fuel g = some (true, out)) := by
  refine ⟨?_, ?_⟩
  · rintro fuel out h ⟨s, hs⟩
    exact solve_sudoku_complete fuel g out h s hs
  · rintro ⟨s, hs⟩ fuel hf
    exact solve_sudoku_true_of_solution g s hs fuel hf

theorem solve_sudoku_false_iff_unsolvable_witness :
    (solve_sudoku 82 deadEndPuzzle = some (false, deadEndPuzzle) ∧
      ¬ ∃ s, solutionOf deadEndPuzzle s) ∧
    (solutionOf nearPuzzle solvedGrid ∧ ∃ out, solve_sudoku 82 nearPuzzle = some (true, out)) :=
  ⟨⟨by decide,
    (solve_sudoku_false_iff_unsolvable deadEndPuzzle (by decide)).1 82 deadEndPuzzle (by decide)⟩,
   ⟨by decide,
    (solve_sudoku_false_iff_unsolvable nearPuzzle (by decide)).2 ⟨solvedGrid, by decide⟩ 82
      (by decide)⟩⟩

/-- C7.  For every input grid, if `solve_sudoku` returns true then every cell that
was non-empty in the input holds the same value in the resulting grid; the
grids handed to the recursive calls also keep every non-empty cell of the
input (only cells that were empty are written). -/
theorem solve_sudoku_true_keeps_filled (fuel : Nat) (g out : sudoku_grid_t)
    (h : solve_sudoku fuel g = some (true, out)) :
    (∀ i j : Fin 9, cell g i j ≠ EMPTY → cell out i j = cell g i j) ∧
    ∀ x ∈ solve_sudoku_calls fuel g,
      ∀ i j : Fin 9, cell g i j ≠ EMPTY → cell x i j = cell g i j :=
  ⟨solve_sudoku_agrees fuel g out h, solve_sudoku_calls_agrees fuel g⟩

theorem solve_sudoku_true_keeps_filled_witness :
    solve_sudoku 82 twoWayPuzzle = some (true, solvedGrid) ∧
      ∀ i j : Fin 9, cell twoWayPuzzle i j ≠ EMPTY → cell solvedGrid i j = cell twoWayPuzzle i j :=
  ⟨by decide, (solve_sudoku_true_keeps_filled 82 twoWayPuzzle solvedGrid (by decide)).1⟩

/-- C8.  For every grid, every digit `d` in `[1, 9]` and every coordinate
`(row, col)`, `is_legal` is true if and only if no cell other than `(row, col)`
in row `row`, in column `col`, or in the 3x3 block from
`(3*(row/3), 3*(col/3))` to `(3*(row/3)+2, 3*(col/3)+2)` holds `d`; and the
result is the same whatever the cell `(row, col)` itself holds. -/
theorem is_legal_spec (g : sudoku_grid_t) (d : Int) (_hd : 1 ≤ d ∧ d ≤ 9) (row col : Fin 9) :
    (is_legal g d row col = true ↔
      ∀ i j : Fin 9, (i, j) ≠ (row, col) →
        (i = row ∨ j = col ∨
          (3 * (row.val / 3) ≤ i.val ∧ i.val ≤ 3 * (row.val / 3) + 2 ∧
            3 * (col.val / 3) ≤ j.val ∧ j.val ≤ 3 * (col.val / 3) + 2)) →
        cell g i j ≠ d) ∧
    ∀ v : Int, is_legal (setCell g row col v) d row col = is_legal g d row col :=
  ⟨is_legal_iff g d row col, fun v => is_legal_setCell g d v row col⟩

theorem is_legal_spec_witness :
    (1 ≤ (4 : Int) ∧ (4 : Int) ≤ 9) ∧ is_legal nearPuzzle 4 0 2 = true ∧
      (∀ i j : Fin 9, (i, j) ≠ ((0 : Fin 9), (2 : Fin 9)) →
        (i = 0 ∨ j = 2 ∨
          (3 * ((0 : Fin 9).val / 3) ≤ i.val ∧ i.val ≤ 3 * ((0 : Fin 9).val / 3) + 2 ∧
            3 * ((2 : Fin 9).val / 3) ≤ j.val ∧ j.val ≤ 3 * ((2 : Fin 9).val / 3) + 2)) →
        cell nearPuzzle i j ≠ 4) ∧
      ∀ v : Int, is_legal (setCell nearPuzzle 0 2 v) 4 0 2 = is_legal nearPuzzle 4 0 2 :=
  have h := is_legal_spec nearPuzzle 4 (by decide) 0 2
  ⟨by decide, by decide, h.1.1 (by decide), h.2⟩

/-- C9.  For every fully filled valid grid, `solve_sudoku` returns true at once
(one level of recursion, no recursive call) and the grid afterwards is
cell-for-cell equal to the grid before the call. -/
theorem solve_sudoku_idempotent (g : sudoku_grid_t) (hv : valid g) (fuel : Nat) :
    solve_sudoku (fuel + 1) g = some (true, g) ∧ solve_sudoku_calls (fuel + 1) g = [] := by
  have hn : next_empty g = none := by
    rw [next_empty_eq_none]
    intro i j
    have := ((valid_iff g).1 hv).1 i j
    show cell g i j ≠ 0
    omega
  refine ⟨solve_sudoku_full fuel g hn, ?_⟩
  rw [solve_sudoku_calls, hn]

theorem solve_sudoku_idempotent_witness :
    valid solvedGrid ∧ solve_sudoku 1 solvedGrid = some (true, solvedGrid) ∧
      solve_sudoku_calls 1 solvedGrid = [] :=
  ⟨by decide, solve_sudoku_idempotent solvedGrid (by decide) 0⟩

/-- C10.  On every input grid with cells in `[0, 9]`: the grid has at most 81
empty cells, `solve_sudoku` returns a result whenever its fuel exceeds the
number of empty cells, and every grid passed to a recursive call made by the
invocation on `g` has exactly one empty cell fewer than `g`. -/
theorem solve_sudoku_terminates (g : sudoku_grid_t) (_hr : inRange g) :
    countEmpty g ≤ 81 ∧
    (∀ fuel, countEmpty g < fuel → ∃ b out, solve_sudoku fuel g = some (b, out)) ∧
    (∀ fuel, ∀ x ∈ solve_sudoku_calls fuel g, countEmpty x + 1 = countEmpty g) := by
  refine ⟨countEmpty_le g, ?_, fun fuel => solve_sudoku_calls_count fuel g⟩
  intro fuel hf
  obtain ⟨⟨b, out⟩, h⟩ := solve_sudoku_isSome fuel g hf
  exact ⟨b, out, h⟩

theorem solve_sudoku_terminates_witness :
    inRange deadEndPuzzle ∧ countEmpty deadEndPuzzle < 82 ∧
      (∃ b out, solve_sudoku 82 deadEndPuzzle = some (b, out)) ∧
      ∀ x ∈ solve_sudoku_calls 82 deadEndPuzzle, countEmpty x + 1 = countEmpty deadEndPuzzle :=
  have h := solve_sudoku_terminates deadEndPuzzle (by decide)
  ⟨by decide, by decide, h.2.1 82 (by decide), h.2.2 82⟩

/-! ## `read_sudoku`: stores and characters -/

theorem cell_storeCell (st : ReadState) (i j : Nat) (v : Int) (r c : Fin 9) :
    cell (storeCell st i j v).grid r c =
      if r.val = i ∧ c.val = j then v else cell st.grid r c := by
  unfold storeCell
  by_cases h : i < 9 ∧ j < 9
  · simp only [dif_pos h]
    rw [cell_setCell]
    simp only [Fin.ext_iff]
  · simp only [dif_neg h]
    have hne : ¬ (r.val = i ∧ c.val = j) := by
      rintro ⟨h1, h2⟩
      exact h ⟨h1 ▸ r.isLt, h2 ▸ c.isLt⟩
    rw [if_neg hne]

theorem isRecognised_iff (c : Char) :
    isRecognised c = true ↔ ('0' ≤ c ∧ c ≤ '9') ∨ c = '.' := by
  simp [isRecognised]

theorem cellValue_of_digit (c : Char) (h : '0' ≤ c ∧ c ≤ '9') :
    cellValue c = (c.toNat : Int) - ('0'.toNat : Int) := by
  have hne : c ≠ '.' := by
    intro hc
    rw [hc] at h
    exact absurd h.1 (by decide)
  unfold cellValue
  rw [if_neg hne]
  rfl

theorem cellValue_range (c : Char) (h : isRecognised c = true) :
    0 ≤ cellValue c ∧ cellValue c ≤ 9 := by
  rcases (isRecognised_iff c).1 h with hd | hdot
  · rw [cellValue_of_digit c hd]
    have h1 : 48 ≤ c.toNat := hd.1
    have h2 : c.toNat ≤ 57 := hd.2
    have h3 : '0'.toNat = 48 := rfl
    rw [h3]
    omega
  · rw [hdot]
    decide

theorem parse_char_recognised (i : Nat) (c : Char) (j : Nat) (st : ReadState)
    (h : isRecognised c = true) :
    parse_char i c j st = (j + 1, storeCell st i j (cellValue c)) := by
  unfold parse_char
  by_cases hd : '0' ≤ c ∧ c ≤ '9'
  · rw [if_pos hd, cellValue_of_digit c hd]
  · rw [if_neg hd]
    rcases (isRecognised_iff c).1 h with h1 | h1
    · exact absurd h1 hd
    · rw [if_pos h1, h1]
      rfl

theorem parse_char_other (i : Nat) (c : Char) (j : Nat) (st : ReadState)
    (h : isRecognised c = false) : parse_char i c j st = (j, st) := by
  unfold parse_char
  have h2 : ¬ (('0' ≤ c ∧ c ≤ '9') ∨ c = '.') := by
    rw [← isRecognised_iff, h]
    simp
  rw [if_neg (fun hd => h2 (Or.inl hd)), if_neg (fun hd => h2 (Or.inr hd))]

theorem recognised_cons (c : Char) (l : List Char) :
    recognised (c :: l) = if isRecognised c = true then c :: recognised l else recognised l := by
  unfold recognised
  rw [List.filter_cons]

/-! ## `read_sudoku`: every cell of a row that was read whole is in `[0, 9]` -/

theorem parse_line_inv (i : Nat) (l : List Char) :
    ∀ (j : Nat) (st : ReadState), j ≤ 9 →
      (∀ r c : Fin 9, r.val = i → c.val < j → 0 ≤ cell st.grid r c ∧ cell st.grid r c ≤ 9) →
      (parse_line i l j st).1 ≤ 9 ∧
      (∀ r c : Fin 9, r.val = i → c.val < (parse_line i l j st).1 →
        0 ≤ cell (parse_line i l j st).2.grid r c ∧ cell (parse_line i l j st).2.grid r c ≤ 9) ∧
      (∀ r c : Fin 9, r.val ≠ i →
        cell (parse_line i l j st).2.grid r c = cell st.grid r c) := by
  induction l with
  | nil =>
    intro j st hj hst
    exact ⟨hj, hst, fun _ _ _ => rfl⟩
  | cons ch rest ih =>
    intro j st hj hst
    rw [parse_line]
    by_cases hnul : ch = '\x00'
    · rw [if_pos hnul]
      exact ⟨hj, hst, fun _ _ _ => rfl⟩
    · rw [if_neg hnul]
      cases hrec : isRecognised ch with
      | true =>
        rw [parse_char_recognised i ch j st hrec]
        have hother : ∀ r c : Fin 9, r.val ≠ i →
            cell (storeCell st i j (cellValue ch)).grid r c = cell st.grid r c := by
          intro r c hr
          rw [cell_storeCell, if_neg (fun hh => hr hh.1)]
        by_cases hover : j + 1 > MAJOR
        · rw [if_pos hover]
          refine ⟨Nat.zero_le _, ?_, hother⟩
          intro r c _ hc
          exact absurd hc (Nat.not_lt_zero _)
        · rw [if_neg hover]
          have hj1 : j + 1 ≤ 9 := Nat.le_of_not_gt hover
          have hst1 : ∀ r c : Fin 9, r.val = i → c.val < j + 1 →
              0 ≤ cell (storeCell st i j (cellValue ch)).grid r c ∧
                cell (storeCell st i j (cellValue ch)).grid r c ≤ 9 := by
            intro r c hr hc
            rw [cell_storeCell]
            by_cases hcj : c.val = j
            · rw [if_pos ⟨hr, hcj⟩]
              exact cellValue_range ch hrec
            · rw [if_neg (fun hh => hcj hh.2)]
              exact hst r c hr (by omega)
          obtain ⟨h1, h2, h3⟩ := ih (j + 1) _ hj1 hst1
          refine ⟨h1, h2, ?_⟩
          intro r c hr
          rw [h3 r c hr, hother r c hr]
      | false =>
        rw [parse_char_other i ch j st hrec]
        have hover : ¬ j > MAJOR := Nat.not_lt.2 hj
        rw [if_neg hover]
        exact ih j st hj hst

theorem read_rows_inRange :
    ∀ (n i : Nat) (s : List Char) (st : ReadState), (read_rows n i s st).1 = none →
      ∀ r : Fin 9,
        ((i ≤ r.val ∧ r.val < i + n) ∨ ∀ c, 0 ≤ cell st.grid r c ∧ cell st.grid r c ≤ 9) →
        ∀ c, 0 ≤ cell (read_rows n i s st).2.grid r c ∧
          cell (read_rows n i s st).2.grid r c ≤ 9 := by
  intro n
  induction n with
  | zero =>
    intro i s st _ r hr
    rcases hr with ⟨h1, h2⟩ | h
    · omega
    · exact h
  | succ n ih =>
    intro i s st hok r hr
    rw [read_rows] at hok ⊢
    by_cases hcan : ((fgets BUFFER_SIZE s).1).head? = none ∨
        ((fgets BUFFER_SIZE s).1).head? = some '\x00'
    · rw [if_pos hcan] at hok
      simp at hok
    · rw [if_neg hcan] at hok ⊢
      by_cases hfew : (parse_line i (fgets BUFFER_SIZE s).1 0 st).1 < MAJOR
      · rw [if_pos hfew] at hok
        simp at hok
      · rw [if_neg hfew] at hok ⊢
        obtain ⟨h1, h2, h3⟩ := parse_line_inv i (fgets BUFFER_SIZE s).1 0 st (Nat.zero_le _)
          (fun _ c _ hc => absurd hc (Nat.not_lt_zero _))
        have h9 : (parse_line i (fgets BUFFER_SIZE s).1 0 st).1 = 9 :=
          Nat.le_antisymm h1 (Nat.le_of_not_lt hfew)
        apply ih (i + 1) _ _ hok r
        by_cases hri : r.val = i
        · right
          intro c
          exact h2 r c hri (by rw [h9]; exact c.isLt)
        · rcases hr with ⟨h4, h5⟩ | h
          · left
            omega
          · right
            intro c
            rw [h3 r c hri]
            exact h c

/-- A successful `read_sudoku` leaves every cell in `[0, 9]`, whatever the
array held before and whatever the text is. -/
theorem read_sudoku_inRange (g0 g : sudoku_grid_t) (text : List Char)
    (h : read_sudoku g0 text = ReadResult.ok g) : inRange g := by
  unfold read_sudoku at h
  cases hrun : (read_sudoku_run g0 text).1 with
  | some e =>
    rw [hrun] at h
    simp only at h
    exfalso
    subst h
    revert hrun
    unfold read_sudoku_run
    generalize (⟨g0, []⟩ : ReadState) = st
    generalize (0 : Nat) = i
    generalize MAJOR = n
    intro hrun
    induction n generalizing i text st with
    | zero => simp [read_rows] at hrun
    | succ n ih =>
      rw [read_rows] at hrun
      split at hrun
      · simp at hrun
      · split at hrun
        · simp at hrun
        · exact ih _ _ _ hrun
  | none =>
    rw [hrun] at h
    simp only [ReadResult.ok.injEq] at h
    intro r c
    rw [← h]
    exact read_rows_inRange MAJOR 0 text _ hrun r (Or.inl ⟨Nat.zero_le _, by have := r.isLt; show r.val < 0 + 9; omega⟩) c

/-! ## `read_sudoku`: lines that are read whole -/

theorem parse_line_plain (i : Nat) (l : List Char) (hnul : '\x00' ∉ l) :
    ∀ (j : Nat) (st : ReadState), j + (recognised l).length ≤ 9 →
      (parse_line i l j st).1 = j + (recognised l).length ∧
      (∀ (r c : Fin 9) (ch : Char), r.val = i → j ≤ c.val →
        (recognised l)[c.val - j]? = some ch →
        cell (parse_line i l j st).2.grid r c = cellValue ch) ∧
      (∀ r c : Fin 9, ¬ (r.val = i ∧ j ≤ c.val ∧ c.val < j + (recognised l).length) →
        cell (parse_line i l j st).2.grid r c = cell st.grid r c) := by
  induction l with
  | nil =>
    intro j st _
    refine ⟨rfl, ?_, fun _ _ _ => rfl⟩
    intro r c ch _ _ hch
    simp [recognised] at hch
  | cons x rest ih =>
    intro j st hlen
    have hx : x ≠ '\x00' := fun hh => hnul (by rw [hh]; exact List.mem_cons_self _ _)
    have hrest : '\x00' ∉ rest := fun hh => hnul (List.mem_cons_of_mem _ hh)
    rw [parse_line, if_neg hx]
    rw [recognised_cons] at hlen ⊢
    cases hrec : isRecognised x with
    | true =>
      rw [hrec] at hlen
      simp only [if_true, List.length_cons] at hlen ⊢
      rw [parse_char_recognised i x j st hrec]
      have hover : ¬ j + 1 > MAJOR := by
        show ¬ j + 1 > 9
        omega
      rw [if_neg hover]
      obtain ⟨h1, h2, h3⟩ := ih hrest (j + 1) (storeCell st i j (cellValue x)) (by omega)
      refine ⟨by rw [h1]; omega, ?_, ?_⟩
      · intro r c ch hr hjc hch
        by_cases hcj : c.val = j
        · rw [hcj, Nat.sub_self] at hch
          simp only [List.getElem?_cons_zero, Option.some.injEq] at hch
          rw [h3 r c (by omega), cell_storeCell, if_pos ⟨hr, hcj⟩, hch]
        · have hsub : c.val - j = (c.val - (j + 1)) + 1 := by omega
          rw [hsub, List.getElem?_cons_succ] at hch
          exact h2 r c ch hr (by omega) hch
      · intro r c hrc
        rw [h3 r c (by omega), cell_storeCell, if_neg (by omega)]
    | false =>
      rw [hrec] at hlen
      simp only [Bool.false_eq_true, if_false] at hlen ⊢
      rw [parse_char_other i x j st hrec]
      have hover : ¬ j > MAJOR := by
        show ¬ j > 9
        omega
      rw [if_neg hover]
      exact ih hrest j st hlen

theorem parse_line_overflow (i : Nat) (l : List Char) (hnul : '\x00' ∉ l) :
    ∀ (j : Nat) (st : ReadState), j ≤ 9 → 9 < j + (recognised l).length →
      (parse_line i l j st).1 = 0 := by
  induction l with
  | nil =>
    intro j st hj hlen
    simp [recognised] at hlen
    omega
  | cons x rest ih =>
    intro j st hj hlen
    have hx : x ≠ '\x00' := fun hh => hnul (by rw [hh]; exact List.mem_cons_self _ _)
    have hrest : '\x00' ∉ rest := fun hh => hnul (List.mem_cons_of_mem _ hh)
    rw [parse_line, if_neg hx]
    rw [recognised_cons] at hlen
    cases hrec : isRecognised x with
    | true =>
      rw [hrec] at hlen
      simp only [if_true, List.length_cons] at hlen
      rw [parse_char_recognised i x j st hrec]
      by_cases hover : j + 1 > MAJOR
      · rw [if_pos hover]
      · rw [if_neg hover]
        exact ih hrest (j + 1) _ (Nat.le_of_not_gt hover) (by omega)
    | false =>
      rw [hrec] at hlen
      simp only [Bool.false_eq_true, if_false] at hlen
      rw [parse_char_other i x j st hrec]
      have hover : ¬ j > MAJOR := Nat.not_lt.2 hj
      rw [if_neg hover]
      exact ih hrest j st hj hlen

theorem firstLine_cons (c : Char) (t : List Char) :
    firstLine (c :: t) = if c = '\n' then [] else c :: firstLine t := by
  unfold firstLine
  by_cases h : c = '\n'
  · simp [h]
  · simp [h]

theorem dropLine_cons (c : Char) (t : List Char) :
    dropLine (c :: t) = if c = '\n' then t else dropLine t := by
  unfold dropLine
  by_cases h : c = '\n'
  · simp [h]
  · simp [h]

/-- On a text whose first line is shorter than the room in the buffer, `fgets`
consumes exactly that line with its newline. -/
theorem fgets_chars_line :
    ∀ (s : List Char) (n : Nat), (firstLine s).length < n →
      (fgets_chars n s).2 = dropLine s ∧
      recognised (fgets_chars n s).1 = recognised (firstLine s) ∧
      ('\x00' ∉ firstLine s → '\x00' ∉ (fgets_chars n s).1) ∧
      (s ≠ [] → (fgets_chars n s).1 ≠ []) := by
  intro s
  induction s with
  | nil =>
    intro n hn
    cases n with
    | zero => exact absurd hn (Nat.not_lt_zero _)
    | succ n => exact ⟨rfl, rfl, fun h => h, fun h => absurd rfl h⟩
  | cons c t ih =>
    intro n hn
    cases n with
    | zero => exact absurd hn (Nat.not_lt_zero _)
    | succ n =>
      rw [fgets_chars]
      rw [firstLine_cons] at hn ⊢
      rw [dropLine_cons]
      by_cases hc : c = '\n'
      · rw [if_pos hc, if_pos hc, if_pos hc]
        refine ⟨rfl, ?_, ?_, fun _ => List.cons_ne_nil _ _⟩
        · rw [hc]
          rfl
        · intro _ hmem
          rw [hc] at hmem
          simp at hmem
      · rw [if_neg hc] at hn
        rw [if_neg hc, if_neg hc, if_neg hc]
        obtain ⟨h1, h2, h3, _⟩ := ih n (by simpa using hn)
        refine ⟨h1, ?_, ?_, fun _ => List.cons_ne_nil _ _⟩
        · rw [recognised_cons, recognised_cons, h2]
        · intro hnul hmem
          rcases List.mem_cons.1 hmem with h5 | h5
          · exact hnul (by rw [h5]; exact List.mem_cons_self _ _)
          · exact h3 (fun hh => hnul (List.mem_cons_of_mem _ hh)) h5

theorem fgets_line (s : List Char) (hlen : (firstLine s).length ≤ 254) :
    (fgets BUFFER_SIZE s).2 = dropLine s ∧
    recognised (fgets BUFFER_SIZE s).1 = recognised (firstLine s) ∧
    ('\x00' ∉ firstLine s → '\x00' ∉ (fgets BUFFER_SIZE s).1) ∧
    (s ≠ [] → (fgets BUFFER_SIZE s).1 ≠ []) := by
  unfold fgets
  apply fgets_chars_line
  show (firstLine s).length < 256 - 1
  omega

/-- The canary test fails on a plain line that is present. -/
theorem canary_plain (s : List Char) (hs : s ≠ []) (hp : plainLine (firstLine s)) :
    ¬ (((fgets BUFFER_SIZE s).1).head? = none ∨
        ((fgets BUFFER_SIZE s).1).head? = some '\x00') := by
  obtain ⟨_, _, h3, h4⟩ := fgets_line s hp.1
  have hne := h4 hs
  have hnul := h3 hp.2
  rintro (h | h)
  · rw [List.head?_eq_none_iff] at h
    exact hne h
  · exact hnul (List.mem_of_mem_head? h)

/-- One iteration of the outer loop on a plain line with exactly nine
recognised characters. -/
theorem read_rows_good_line (n i : Nat) (s : List Char) (st : ReadState)
    (hp : plainLine (firstLine s)) (h9 : (recognised (firstLine s)).length = 9) :
    ∃ st2, read_rows (n + 1) i s st = read_rows n (i + 1) (dropLine s) st2 ∧
      (∀ (r c : Fin 9) (ch : Char), r.val = i → (recognised (firstLine s))[c.val]? = some ch →
        cell st2.grid r c = cellValue ch) ∧
      (∀ r c : Fin 9, r.val ≠ i → cell st2.grid r c = cell st.grid r c) := by
  have hs : s ≠ [] := by
    intro hh
    rw [hh] at h9
    simp [firstLine, recognised] at h9
  obtain ⟨h1, h2, h3, _⟩ := fgets_line s hp.1
  have hlen : 0 + (recognised (fgets BUFFER_SIZE s).1).length ≤ 9 := by
    rw [h2, h9]
  obtain ⟨p1, p2, p3⟩ := parse_line_plain i (fgets BUFFER_SIZE s).1 (h3 hp.2) 0 st hlen
  refine ⟨(parse_line i (fgets BUFFER_SIZE s).1 0 st).2, ?_, ?_, ?_⟩
  · rw [read_rows, if_neg (canary_plain s hs hp)]
    have hnot : ¬ (parse_line i (fgets BUFFER_SIZE s).1 0 st).1 < MAJOR := by
      rw [p1, h2, h9]
      decide
    rw [if_neg hnot, h1]
  · intro r c ch hr hch
    apply p2 r c ch hr (Nat.zero_le _)
    rw [h2]
    exact hch
  · intro r c hr
    exact p3 r c (fun hh => hr hh.1)

/-- One iteration of the outer loop on a plain line that is present and has
fewer or more than nine recognised characters. -/
theorem read_rows_bad_line (n i : Nat) (s : List Char) (st : ReadState) (hs : s ≠ [])
    (hp : plainLine (firstLine s)) (h9 : (recognised (firstLine s)).length ≠ 9) :
    (read_rows (n + 1) i s st).1 = some (ReadResult.faultyInput (i + 1)) := by
  obtain ⟨_, h2, h3, _⟩ := fgets_line s hp.1
  rw [read_rows, if_neg (canary_plain s hs hp)]
  have hfew : (parse_line i (fgets BUFFER_SIZE s).1 0 st).1 < MAJOR := by
    by_cases hle : (recognised (firstLine s)).length ≤ 9
    · have := (parse_line_plain i (fgets BUFFER_SIZE s).1 (h3 hp.2) 0 st
        (by rw [h2]; omega)).1
      rw [this, h2]
      show 0 + (recognised (firstLine s)).length < 9
      omega
    · have := parse_line_overflow i (fgets BUFFER_SIZE s).1 (h3 hp.2) 0 st (Nat.zero_le _)
        (by rw [h2]; omega)
      rw [this]
      decide
  rw [if_pos hfew]

/-- One iteration of the outer loop at the end of the text. -/
theorem read_rows_no_line (n i : Nat) (st : ReadState) :
    (read_rows (n + 1) i [] st).1 = some (ReadResult.lineMissing (i + 1)) := by
  rw [read_rows]
  have : ((fgets BUFFER_SIZE []).1).head? = none := rfl
  rw [if_pos (Or.inl this)]

theorem lineAt_dropLine (s : List Char) (m : Nat) :
    lineAt (dropLine s) m = lineAt s (m + 1) := rfl

theorem dropLines_nil (k : Nat) : dropLines [] k = [] := by
  induction k with
  | zero => rfl
  | succ k ih =>
    rw [dropLines]
    exact ih

/-- The outer loop on a text whose first `k` lines are plain and hold exactly
nine recognised characters each: the loop passes them, and rows `i .. i+k-1`
hold their values. -/
theorem read_rows_lines :
    ∀ (k n i : Nat) (s : List Char) (st : ReadState),
      (∀ m, m < k → plainLine (lineAt s m) ∧ (recognised (lineAt s m)).length = 9) →
      ∃ st2, read_rows (k + n) i s st = read_rows n (i + k) (dropLines s k) st2 ∧
        (∀ (r c : Fin 9) (ch : Char), i ≤ r.val → r.val < i + k →
          (recognised (lineAt s (r.val - i)))[c.val]? = some ch →
          cell st2.grid r c = cellValue ch) ∧
        (∀ r c : Fin 9, ¬ (i ≤ r.val ∧ r.val < i + k) →
          cell st2.grid r c = cell st.grid r c) := by
  intro k
  induction k with
  | zero =>
    intro n i s st _
    refine ⟨st, ?_, ?_, fun _ _ _ => rfl⟩
    · rw [Nat.zero_add]
      rfl
    · intro r c ch h1 h2
      omega
  | succ k ih =>
    intro n i s st hlines
    obtain ⟨hp, h9⟩ := hlines 0 (Nat.succ_pos k)
    obtain ⟨st1, e1, g1, u1⟩ := read_rows_good_line (k + n) i s st hp h9
    obtain ⟨st2, e2, g2, u2⟩ := ih n (i + 1) (dropLine s) st1
      (fun m hm => by
        rw [lineAt_dropLine]
        exact hlines (m + 1) (Nat.succ_lt_succ hm))
    refine ⟨st2, ?_, ?_, ?_⟩
    · have e3 : k + 1 + n = k + n + 1 := by omega
      have e4 : i + (k + 1) = i + 1 + k := by omega
      rw [e3, e1, e2, e4]
      rfl
    · intro r c ch h1 h2 hch
      by_cases hri : r.val = i
      · rw [u2 r c (by omega)]
        apply g1 r c ch hri
        rw [hri, Nat.sub_self] at hch
        exact hch
      · apply g2 r c ch (by omega) (by omega)
        rw [lineAt_dropLine]
        have e5 : r.val - (i + 1) + 1 = r.val - i := by omega
        rw [e5]
        exact hch
    · intro r c hrc
      rw [u2 r c (by omega), u1 r c (by omega)]

/-! ## The checked solver never leaves the array -/

theorem readAt_coord (g : sudoku_grid_t) (i j : Fin 9) :
    readAt g (i.val : Int) (j.val : Int) = some (cell g i j) := by
  unfold readAt
  have hi := i.isLt
  have hj := j.isLt
  rw [dif_pos (by omega)]
  rfl

theorem writeAt_coord (g : sudoku_grid_t) (i j : Fin 9) (v : Int) :
    writeAt g (i.val : Int) (j.val : Int) v = some (setCell g i j v) := by
  unfold writeAt
  have hi := i.isLt
  have hj := j.isLt
  rw [dif_pos (by omega)]
  rfl

theorem next_empty_coords_eq : next_empty_coords = allCells.map coordOf := by
  decide

theorem is_legal_coords_eq (row col : Fin 9) :
    is_legal_coords (row.val : Int) (col.val : Int) = (is_legal_cells row col).map coordOf := by
  revert row col
  decide

theorem next_empty_scan_map (g : sudoku_grid_t) (l : List (Fin 9 × Fin 9)) :
    next_empty_scan g (l.map coordOf) =
      some (match l.find? (fun p => decide (cell g p.1 p.2 = EMPTY)) with
        | some p => coordOf p
        | none => (NONE, NONE)) := by
  induction l with
  | nil => rfl
  | cons p rest ih =>
    obtain ⟨i, j⟩ := p
    rw [List.map_cons, List.find?_cons]
    show next_empty_scan g (((i.val : Int), (j.val : Int)) :: rest.map coordOf) = _
    rw [next_empty_scan, readAt_coord]
    by_cases h : cell g i j = EMPTY
    · simp only [h, if_true, decide_True]
      rfl
    · simp only [h, if_false, decide_False]
      exact ih

theorem findSome_pair_eq_find (g : sudoku_grid_t) (i : Fin 9) (l : List (Fin 9)) :
    (l.findSome? fun j => if cell g i j = EMPTY then some (i, j) else none) =
      (l.map fun j => (i, j)).find? (fun p => decide (cell g p.1 p.2 = EMPTY)) := by
  induction l with
  | nil => rfl
  | cons j rest ih =>
    rw [List.findSome?_cons, List.map_cons, List.find?_cons]
    by_cases h : cell g i j = EMPTY
    · simp [h]
    · simp [h, ih]

theorem next_empty_eq_find (g : sudoku_grid_t) :
    next_empty g = allCells.find? (fun p => decide (cell g p.1 p.2 = EMPTY)) := by
  unfold next_empty allCells
  rw [List.find?_flatMap]
  congr 1
  funext i
  exact findSome_pair_eq_find g i _

/-- The checked `next_empty` returns the coordinate the unchecked one finds, and
`(NONE, NONE)` when it finds none; it never reads outside the array. -/
theorem next_empty_checked_eq (g : sudoku_grid_t) :
    next_empty_checked g =
      some (match next_empty g with
        | some p => coordOf p
        | none => (NONE, NONE)) := by
  unfold next_empty_checked
  rw [next_empty_coords_eq, next_empty_scan_map, next_empty_eq_find]

theorem is_legal_scan_map (g : sudoku_grid_t) (d : Int) (l : List (Fin 9 × Fin 9)) :
    is_legal_scan g d (l.map coordOf) =
      some (l.all fun p => !decide (cell g p.1 p.2 = d)) := by
  induction l with
  | nil => rfl
  | cons p rest ih =>
    obtain ⟨i, j⟩ := p
    rw [List.map_cons, List.all_cons]
    show is_legal_scan g d (((i.val : Int), (j.val : Int)) :: rest.map coordOf) = _
    rw [is_legal_scan, readAt_coord]
    by_cases h : cell g i j = d
    · simp [h]
    · simp [h, ih]

theorem is_legal_eq_all_cells (g : sudoku_grid_t) (d : Int) (row col : Fin 9) :
    is_legal g d row col = (is_legal_cells row col).all fun p => !decide (cell g p.1 p.2 = d) := by
  rw [Bool.eq_iff_iff]
  unfold is_legal is_legal_cells
  simp only [Bool.and_eq_true, List.all_eq_true, List.mem_finRange, true_implies,
    Bool.or_eq_true, decide_eq_true_eq, Bool.not_eq_true', decide_eq_false_iff_not,
    List.mem_append, List.mem_map, List.mem_filter, List.mem_flatMap, true_and]
  constructor
  · rintro ⟨⟨h1, h2⟩, h3⟩ p hp
    rcases hp with (⟨i, hi, rfl⟩ | ⟨j, hj, rfl⟩) | ⟨a, b, hb, rfl⟩
    · rcases h1 i with h | h
      · exact absurd h hi
      · exact h
    · rcases h2 j with h | h
      · exact absurd h hj
      · exact h
    · rcases h3 a b with h | h
      · exact absurd h hb
      · exact h
  · intro h
    refine ⟨⟨?_, ?_⟩, ?_⟩
    · intro i
      by_cases hi : row = i
      · exact Or.inl hi
      · exact Or.inr (h (i, col) (Or.inl (Or.inl ⟨i, hi, rfl⟩)))
    · intro j
      by_cases hj : col = j
      · exact Or.inl hj
      · exact Or.inr (h (row, j) (Or.inl (Or.inr ⟨j, hj, rfl⟩)))
    · intro a b
      by_cases hab : row = blockIdx row a ∧ col = blockIdx col b
      · exact Or.inl hab
      · exact Or.inr (h (blockIdx row a, blockIdx col b) (Or.inr ⟨a, b, hab, rfl⟩))

/-- The checked `is_legal` answers as the unchecked one; it never reads outside
the array when the target coordinate is inside. -/
theorem is_legal_checked_eq (g : sudoku_grid_t) (d : Int) (row col : Fin 9) :
    is_legal_checked g d (row.val : Int) (col.val : Int) = some (is_legal g d row col) := by
  unfold is_legal_checked
  rw [is_legal_coords_eq, is_legal_scan_map, is_legal_eq_all_cells]

theorem guess_loop_checked_eq
    {recur : sudoku_grid_t → Option (Bool × sudoku_grid_t)}
    {recurC : sudoku_grid_t → Checked (Bool × sudoku_grid_t)}
    (hrec : ∀ x, recurC x = toChecked (recur x)) (row col : Fin 9) (ds : List Int) :
    ∀ s : sudoku_grid_t,
      guess_loop_checked recurC (row.val : Int) (col.val : Int) ds s =
        toChecked (guess_loop recur row col ds s) := by
  induction ds with
  | nil =>
    intro s
    rw [guess_loop_checked, writeAt_coord, guess_loop]
    rfl
  | cons d ds ih =>
    intro s
    rw [guess_loop_checked, is_legal_checked_eq, guess_loop]
    cases hl : is_legal s d row col with
    | false =>
      simp only [Bool.false_eq_true, if_false]
      exact ih s
    | true =>
      simp only [if_true]
      rw [writeAt_coord]
      simp only
      rw [hrec]
      cases hr : recur (setCell s row col d) with
      | none => rfl
      | some res =>
        obtain ⟨b, s2⟩ := res
        cases b with
        | true => rfl
        | false => exact ih s2

/-- The checked solver computes what the unchecked one computes: its only
outcomes are a result or the exhaustion of the fuel. -/
theorem solve_sudoku_checked_eq :
    ∀ (fuel : Nat) (g : sudoku_grid_t),
      solve_sudoku_checked fuel g = toChecked (solve_sudoku fuel g) := by
  intro fuel
  induction fuel with
  | zero =>
    intro g
    rfl
  | succ fuel ih =>
    intro g
    rw [solve_sudoku_checked, next_empty_checked_eq, solve_sudoku]
    cases hn : next_empty g with
    | none =>
      rfl
    | some p =>
      obtain ⟨r, c⟩ := p
      simp only [coordOf]
      have hne : ¬ ((r.val : Int) = -1 ∧ (c.val : Int) = -1) := by
        intro hh
        have := hh.1
        omega
      rw [if_neg hne]
      exact guess_loop_checked_eq ih r c guesses g

/-- Every coordinate `is_legal` reads for a target inside the array is inside
the array. -/
theorem is_legal_coords_inside (row col : Fin 9) :
    ∀ p ∈ is_legal_coords (row.val : Int) (col.val : Int),
      0 ≤ p.1 ∧ p.1 < 9 ∧ 0 ≤ p.2 ∧ p.2 < 9 := by
  intro p hp
  rw [is_legal_coords_eq] at hp
  obtain ⟨q, _, hq⟩ := List.mem_map.1 hp
  rw [← hq]
  have h1 := q.1.isLt
  have h2 := q.2.isLt
  simp only [coordOf]
  omega

/-! ## `print_sudoku` -/

theorem print_cell_inRange (v : Int) (h : 0 ≤ v ∧ v ≤ 9) : print_cell v = [' ', cellChar v] := by
  obtain ⟨h0, h9⟩ := h
  interval_cases v <;> rfl

/-- The value a cell character stands for is the value of the cell. -/
theorem cellValue_cellChar (v : Int) (h : 0 ≤ v ∧ v ≤ 9) : cellValue (cellChar v) = v := by
  obtain ⟨h0, h9⟩ := h
  interval_cases v <;> rfl

theorem cellChar_ne_dot (v : Int) (h : 1 ≤ v ∧ v ≤ 9) : cellChar v ≠ '.' := by
  obtain ⟨h0, h9⟩ := h
  interval_cases v <;> decide

theorem print_row_unfold (g : sudoku_grid_t) (i : Fin 9) :
    print_row g i = ' ' :: '|' :: (print_cell (cell g i 0) ++ (print_cell (cell g i 1) ++
      (print_cell (cell g i 2) ++ (' ' :: '|' :: (print_cell (cell g i 3) ++
      (print_cell (cell g i 4) ++ (print_cell (cell g i 5) ++ (' ' :: '|' ::
      (print_cell (cell g i 6) ++ (print_cell (cell g i 7) ++ (print_cell (cell g i 8) ++
      [' ', '|', '\n']))))))))))) := by
  simp [print_row, List.finRange_succ, List.flatMap_cons]
  rfl

theorem print_row_inRange (g : sudoku_grid_t) (hr : inRange g) (i : Fin 9) :
    print_row g i = rowLine g i ++ ['\n'] := by
  rw [print_row_unfold]
  simp only [print_cell_inRange _ (hr i _)]
  rfl

theorem print_sudoku_unfold (g : sudoku_grid_t) :
    print_sudoku g = (borderLine ++ ['\n']) ++ (print_row g 0 ++ (print_row g 1 ++
      (print_row g 2 ++ ((separatorLine ++ ['\n']) ++ (print_row g 3 ++ (print_row g 4 ++
      (print_row g 5 ++ ((separatorLine ++ ['\n']) ++ (print_row g 6 ++ (print_row g 7 ++
      (print_row g 8 ++ (borderLine ++ ['\n'])))))))))))) := by
  simp [print_sudoku, List.finRange_succ, List.flatMap_cons, borderLine, separatorLine]
  rfl

/-- On a grid with cells in `[0, 9]` the output is the thirteen expected lines,
each followed by a newline. -/
theorem print_sudoku_layout (g : sudoku_grid_t) (hr : inRange g) :
    print_sudoku g = (outputLines g).flatMap fun l => l ++ ['\n'] := by
  rw [print_sudoku_unfold]
  simp only [print_row_inRange g hr]
  rfl

/-- Row `i` is line number `i + 1 + i / 3` of the expected output (counted from 0). -/
theorem outputLines_row (g : sudoku_grid_t) (i : Fin 9) :
    (outputLines g)[i.val + 1 + i.val / 3]? = some (rowLine g i) := by
  fin_cases i <;> rfl

/-- Cell `(i, j)` is shown at position `3 + 2 j + 2 (j / 3)` of the line of row `i`. -/
theorem rowLine_cell (g : sudoku_grid_t) (i j : Fin 9) :
    (rowLine g i)[3 + 2 * j.val + 2 * (j.val / 3)]? = some (cellChar (cell g i j)) := by
  fin_cases j <;> rfl

theorem length_mem_outputLines (g : sudoku_grid_t) : ∀ l ∈ outputLines g, l.length = 26 := by
  intro l hl
  simp only [outputLines, List.mem_cons, List.mem_singleton, List.not_mem_nil, or_false] at hl
  rcases hl with h | h | h | h | h | h | h | h | h | h | h | h | h <;> rw [h] <;> rfl

/-- Lines of equal length are recovered from their concatenation. -/
theorem lines_of_flatMap_eq :
    ∀ (l1 l2 : List (List Char)), l1.length = l2.length →
      (∀ l ∈ l1, l.length = 26) → (∀ l ∈ l2, l.length = 26) →
      (l1.flatMap fun l => l ++ ['\n']) = (l2.flatMap fun l => l ++ ['\n']) → l1 = l2 := by
  intro l1
  induction l1 with
  | nil =>
    intro l2 hlen _ _ _
    cases l2 with
    | nil => rfl
    | cons b t => simp at hlen
  | cons a t ih =>
    intro l2 hlen h1 h2 heq
    cases l2 with
    | nil => simp at hlen
    | cons b t2 =>
      rw [List.flatMap_cons, List.flatMap_cons] at heq
      have hla : a.length = 26 := h1 a (List.mem_cons_self _ _)
      have hlb : b.length = 26 := h2 b (List.mem_cons_self _ _)
      obtain ⟨e1, e2⟩ := List.append_inj heq (by simp [hla, hlb])
      have e3 : a = b := List.append_cancel_right e1
      rw [e3, ih t2 (by simpa using hlen) (fun l hl => h1 l (List.mem_cons_of_mem _ hl))
        (fun l hl => h2 l (List.mem_cons_of_mem _ hl)) e2]

/-- Two grids with cells in `[0, 9]` that are printed alike are equal. -/
theorem print_sudoku_injective (g g2 : sudoku_grid_t) (hr : inRange g) (hr2 : inRange g2)
    (h : print_sudoku g2 = print_sudoku g) : g2 = g := by
  rw [print_sudoku_layout g hr, print_sudoku_layout g2 hr2] at h
  have hlines : outputLines g2 = outputLines g :=
    lines_of_flatMap_eq _ _ rfl (length_mem_outputLines g2) (length_mem_outputLines g) h
  apply grid_ext
  intro i j
  have h1 := outputLines_row g i
  have h2 := outputLines_row g2 i
  rw [hlines, h1] at h2
  have hrow : rowLine g i = rowLine g2 i := Option.some.inj h2
  have h3 := rowLine_cell g i j
  have h4 := rowLine_cell g2 i j
  rw [← hrow, h3] at h4
  have h5 : cellChar (cell g i j) = cellChar (cell g2 i j) := Option.some.inj h4
  rw [← cellValue_cellChar _ (hr i j), ← cellValue_cellChar _ (hr2 i j), h5]

/-- A character that is neither a blank, a bar, a dash or a plus, and that
shows no cell, occurs in no line of the expected output. -/
theorem not_mem_outputLines (g : sudoku_grid_t) (x : Char) (h1 : x ≠ ' ') (h2 : x ≠ '|')
    (h3 : x ≠ '-') (h4 : x ≠ '+') (hcell : ∀ i j, cellChar (cell g i j) ≠ x) :
    ∀ l ∈ outputLines g, x ∉ l := by
  intro l hl
  simp only [outputLines, List.mem_cons, List.mem_singleton, List.not_mem_nil, or_false] at hl
  have hb : x ∉ borderLine := by
    intro hmem
    have hall : ∀ y ∈ borderLine, y = ' ' ∨ y = '-' := by decide
    rcases hall x hmem with h | h
    · exact h1 h
    · exact h3 h
  have hs : x ∉ separatorLine := by
    intro hmem
    have hall : ∀ y ∈ separatorLine, y = ' ' ∨ y = '-' ∨ y = '+' := by decide
    rcases hall x hmem with h | h | h
    · exact h1 h
    · exact h3 h
    · exact h4 h
  have hrow : ∀ i, x ∉ rowLine g i := by
    intro i hmem
    simp only [rowLine, List.mem_cons, List.mem_singleton, List.not_mem_nil, or_false] at hmem
    have c0 := hcell i 0
    have c1 := hcell i 1
    have c2 := hcell i 2
    have c3 := hcell i 3
    have c4 := hcell i 4
    have c5 := hcell i 5
    have c6 := hcell i 6
    have c7 := hcell i 7
    have c8 := hcell i 8
    rcases hmem with h | h | h | h | h | h | h | h | h | h | h | h | h | h | h | h | h | h | h |
      h | h | h | h | h | h | h <;>
      first
        | exact h1 h
        | exact h2 h
        | exact c0 h.symm
        | exact c1 h.symm
        | exact c2 h.symm
        | exact c3 h.symm
        | exact c4 h.symm
        | exact c5 h.symm
        | exact c6 h.symm
        | exact c7 h.symm
        | exact c8 h.symm
  rcases hl with h | h | h | h | h | h | h | h | h | h | h | h | h <;> rw [h] <;>
    first
      | exact hb
      | exact hs
      | exact hrow _

theorem not_newline_mem_outputLines (g : sudoku_grid_t) (hr : inRange g) :
    ∀ l ∈ outputLines g, '\n' ∉ l := by
  apply not_mem_outputLines g '\n' (by decide) (by decide) (by decide) (by decide)
  intro i j
  obtain ⟨h0, h9⟩ := hr i j
  generalize cell g i j = v at h0 h9
  interval_cases v <;> decide

/-- The output for a full grid with cells in `[0, 9]` contains no dot. -/
theorem not_dot_mem_print_sudoku (g : sudoku_grid_t) (hr : inRange g) (hf : full g) :
    '.' ∉ print_sudoku g := by
  rw [print_sudoku_layout g hr]
  intro hmem
  obtain ⟨l, hl, hx⟩ := List.mem_flatMap.1 hmem
  rcases List.mem_append.1 hx with h | h
  · refine not_mem_outputLines g '.' (by decide) (by decide) (by decide) (by decide) ?_ l hl h
    intro i j
    apply cellChar_ne_dot
    have h1 := hr i j
    have h2 : cell g i j ≠ 0 := hf i j
    omega
  · simp at h

/-- The characters that show the digits `1..9` are the digit characters. -/
theorem map_cellChar_perm (l : List Int) (h : l.Perm digits) :
    (l.map cellChar).Perm digitChars :=
  h.map cellChar

/-! ## Cells stay in `[0, 9]` during the search -/

theorem solve_sudoku_inRange :
    ∀ (fuel : Nat) (g : sudoku_grid_t) (b : Bool) (out : sudoku_grid_t),
      solve_sudoku fuel g = some (b, out) → inRange g → inRange out := by
  intro fuel
  induction fuel with
  | zero =>
    intro g b out h
    simp [solve_sudoku] at h
  | succ fuel ih =>
    intro g b out h hr
    cases b with
    | false =>
      rw [solve_sudoku_restores (fuel + 1) g out h]
      exact hr
    | true =>
      rcases solve_sudoku_true_cases fuel g out h with
        ⟨_, h2⟩ | ⟨r, c, pre, d, post, _, hg, _, hs, _⟩
      · rw [h2]
        exact hr
      · have hd : d ∈ guesses := by rw [hg]; simp
        exact ih _ true out hs (inRange_setCell g r c d hr hd)

theorem searchCall_inRange (fuel0 : Nat) (g0 : sudoku_grid_t) (hr : inRange g0)
    (fuel : Nat) (x : sudoku_grid_t) (h : SearchCall fuel0 g0 fuel x) : inRange x := by
  induction h with
  | root => exact hr
  | step _ hx ih =>
    obtain ⟨r, c, d, _, hd, _, hxd⟩ := solve_sudoku_calls_mem _ _ _ hx
    rw [hxd]
    exact inRange_setCell _ r c d ih hd


/-! ## `read_sudoku` on whole texts -/

theorem read_sudoku_of_run (g0 : sudoku_grid_t) (text : List Char) (e : ReadResult)
    (h : (read_sudoku_run g0 text).1 = some e) : read_sudoku g0 text = e := by
  unfold read_sudoku
  rw [h]

theorem read_sudoku_lines_ok (g0 : sudoku_grid_t) (text : List Char)
    (h : ∀ i, i < 9 → plainLine (lineAt text i) ∧ (recognised (lineAt text i)).length = 9) :
    ∃ g, read_sudoku g0 text = ReadResult.ok g ∧
      ∀ i j : Fin 9, ((recognised (lineAt text i.val))[j.val]?).map cellValue = some (cell g i j) := by
  obtain ⟨st2, e, hcells, _⟩ := read_rows_lines 9 0 0 text { grid := g0, writes := [] } h
  have hrun : read_sudoku_run g0 text = (none, st2) := by
    unfold read_sudoku_run
    exact e
  refine ⟨st2.grid, ?_, ?_⟩
  · unfold read_sudoku
    rw [hrun]
  · intro i j
    have hlt : j.val < (recognised (lineAt text i.val)).length := by
      rw [(h i.val i.isLt).2]
      exact j.isLt
    have hget : (recognised (lineAt text i.val))[j.val]? =
        some ((recognised (lineAt text i.val))[j.val]) := List.getElem?_eq_getElem hlt
    rw [hget, Option.map_some']
    congr 1
    symm
    apply hcells i j _ (Nat.zero_le _) (by have := i.isLt; omega)
    rw [Nat.sub_zero]
    exact hget

theorem read_sudoku_line_faulty (g0 : sudoku_grid_t) (text : List Char) (k : Nat) (hk : k < 9)
    (hprev : ∀ i, i < k → plainLine (lineAt text i) ∧ (recognised (lineAt text i)).length = 9)
    (hline : hasLine text k) (hplain : plainLine (lineAt text k))
    (hcount : (recognised (lineAt text k)).length ≠ 9) :
    read_sudoku g0 text = ReadResult.faultyInput (k + 1) := by
  obtain ⟨st2, e, _, _⟩ := read_rows_lines k (8 - k + 1) 0 text { grid := g0, writes := [] } hprev
  apply read_sudoku_of_run
  unfold read_sudoku_run
  have e1 : MAJOR = k + (8 - k + 1) := by
    show 9 = k + (8 - k + 1)
    omega
  rw [e1, e, Nat.zero_add]
  exact read_rows_bad_line (8 - k) k (dropLines text k) st2 hline hplain hcount

theorem read_sudoku_line_missing (g0 : sudoku_grid_t) (text : List Char) (k : Nat) (hk : k < 9)
    (hprev : ∀ i, i < k → plainLine (lineAt text i) ∧ (recognised (lineAt text i)).length = 9)
    (hend : ¬ hasLine text k) :
    read_sudoku g0 text = ReadResult.lineMissing (k + 1) := by
  obtain ⟨st2, e, _, _⟩ := read_rows_lines k (8 - k + 1) 0 text { grid := g0, writes := [] } hprev
  apply read_sudoku_of_run
  unfold read_sudoku_run
  have e1 : MAJOR = k + (8 - k + 1) := by
    show 9 = k + (8 - k + 1)
    omega
  have hnil : dropLines text k = [] := by
    unfold hasLine at hend
    exact not_not.1 hend
  rw [e1, e, Nat.zero_add, hnil]
  exact read_rows_no_line (8 - k) k st2

/-! ## The claims on the reader, the printer and the checked solver -/

/-- C11.  Every cell value is always in `[0, 9]`: a successful `read_sudoku`
leaves all cells in `[0, 9]`; and for every grid with all cells in `[0, 9]`,
the grid after `solve_sudoku`, whether it returns true or false, and every
grid on which the search invokes `solve_sudoku`, has all cells in `[0, 9]`. -/
theorem cells_always_inRange :
    (∀ (g0 : sudoku_grid_t) (text : List Char) (g : sudoku_grid_t),
      read_sudoku g0 text = ReadResult.ok g → inRange g) ∧
    (∀ g : sudoku_grid_t, inRange g →
      (∀ (fuel : Nat) (b : Bool) (out : sudoku_grid_t),
        solve_sudoku fuel g = some (b, out) → inRange out) ∧
      (∀ (fuel0 fuel : Nat) (x : sudoku_grid_t), SearchCall fuel0 g fuel x → inRange x)) :=
  ⟨fun g0 text g h => read_sudoku_inRange g0 g text h, fun g hr =>
    ⟨fun fuel b out h => solve_sudoku_inRange fuel g b out h hr,
     fun fuel0 fuel x h => searchCall_inRange fuel0 g hr fuel x h⟩⟩

set_option maxRecDepth 100000 in
theorem cells_always_inRange_witness :
    (read_sudoku solvedGrid classicText = ReadResult.ok classicPuzzle ∧ inRange classicPuzzle) ∧
    (solve_sudoku 82 nearPuzzle = some (true, solvedGrid) ∧ inRange solvedGrid) ∧
    (solve_sudoku 82 deadEndPuzzle = some (false, deadEndPuzzle) ∧ inRange deadEndPuzzle) ∧
    (SearchCall 82 deadEndPuzzle 81 (setCell deadEndPuzzle 0 7 8) ∧
      inRange (setCell deadEndPuzzle 0 7 8)) :=
  have hcall : SearchCall 82 deadEndPuzzle 81 (setCell deadEndPuzzle 0 7 8) :=
    SearchCall.step SearchCall.root (by decide)
  ⟨⟨by decide, cells_always_inRange.1 solvedGrid classicText classicPuzzle (by decide)⟩,
   ⟨by decide, (cells_always_inRange.2 nearPuzzle (by decide)).1 82 true solvedGrid (by decide)⟩,
   ⟨by decide,
    (cells_always_inRange.2 deadEndPuzzle (by decide)).1 82 false deadEndPuzzle (by decide)⟩,
   ⟨hcall, (cells_always_inRange.2 deadEndPuzzle (by decide)).2 82 81 _ hcall⟩⟩

/-- C12, counterexample.  Each of the first nine lines of `longLineText` and of
`nulLineText` contains exactly nine recognised characters, yet `read_sudoku`
fails on both: the first line of `longLineText` is 259 characters long and
`fgets` reads only 255 of them, with five recognised characters; the first
line of `nulLineText` starts with a NUL character, which the canary test
takes for a missing line. -/
theorem read_sudoku_fails_on_nine_cells :
    (∀ i, i < 9 → (recognised (lineAt longLineText i)).length = 9) ∧
    read_sudoku solvedGrid longLineText = ReadResult.faultyInput 1 ∧
    (∀ i, i < 9 → (recognised (lineAt nulLineText i)).length = 9) ∧
    read_sudoku solvedGrid nulLineText = ReadResult.lineMissing 1 := by
  set_option maxRecDepth 100000 in decide

/-- C12, as amended.  For every input text whose first nine lines each have at
most 254 characters before the line end, contain no NUL character and contain
exactly nine recognised characters (`'0'..'9'` and `'.'`), whatever other
characters the lines contain, `read_sudoku` succeeds and cell `(i, j)` of the
grid is the value of the `j`-th recognised character of line `i`, where a digit
gives its numeric value and both `'.'` and `'0'` give 0. -/
theorem read_sudoku_ok_of_lines (g0 : sudoku_grid_t) (text : List Char)
    (h : ∀ i, i < 9 → plainLine (lineAt text i) ∧ (recognised (lineAt text i)).length = 9) :
    (∃ g, read_sudoku g0 text = ReadResult.ok g ∧
      ∀ i j : Fin 9,
        ((recognised (lineAt text i.val))[j.val]?).map cellValue = some (cell g i j)) ∧
    cellValue '.' = 0 ∧ cellValue '0' = 0 ∧
    ∀ c : Char, '0' ≤ c ∧ c ≤ '9' → cellValue c = (c.toNat : Int) - ('0'.toNat : Int) :=
  ⟨read_sudoku_lines_ok g0 text h, rfl, rfl, cellValue_of_digit⟩

set_option maxRecDepth 100000 in
theorem read_sudoku_ok_of_lines_witness :
    (∀ i, i < 9 → plainLine (lineAt decoratedText i) ∧
      (recognised (lineAt decoratedText i)).length = 9) ∧
    read_sudoku deadEndPuzzle decoratedText = ReadResult.ok classicPuzzle ∧
    ∃ g, read_sudoku deadEndPuzzle decoratedText = ReadResult.ok g ∧
      ∀ i j : Fin 9,
        ((recognised (lineAt decoratedText i.val))[j.val]?).map cellValue = some (cell g i j) :=
  ⟨by decide, by decide, (read_sudoku_ok_of_lines deadEndPuzzle decoratedText (by decide)).1⟩

/-- C13, counterexample.  In `longThenShortText` line 1 contains exactly nine
recognised characters and line 2 is present with eight, yet `read_sudoku`
reports line 1, not line 2 (line 1 is longer than the buffer).  The only line
of `nulShortText` is present and contains eight recognised characters, yet
`read_sudoku` reports that line 1 is missing (the line starts with NUL). -/
theorem read_sudoku_names_other_line :
    ((recognised (lineAt longThenShortText 0)).length = 9 ∧ hasLine longThenShortText 1 ∧
      (recognised (lineAt longThenShortText 1)).length = 8 ∧
      read_sudoku solvedGrid longThenShortText = ReadResult.faultyInput 1) ∧
    (hasLine nulShortText 0 ∧ (recognised (lineAt nulShortText 0)).length = 8 ∧
      read_sudoku solvedGrid nulShortText = ReadResult.lineMissing 1) := by
  set_option maxRecDepth 100000 in decide

/-- C13, as amended.  For every input text and every `k` in `1..9`, if lines
`1..k-1` each contain exactly nine recognised characters, line `k` is present
and contains fewer or more than nine recognised characters, and each of the
lines `1..k` has at most 254 characters before the line end and no NUL
character, then `read_sudoku` fails with "Faulty input on line k". -/
theorem read_sudoku_faulty_line (g0 : sudoku_grid_t) (text : List Char) (k : Nat)
    (hk1 : 1 ≤ k) (hk9 : k ≤ 9)
    (hprev : ∀ i, i < k - 1 →
      plainLine (lineAt text i) ∧ (recognised (lineAt text i)).length = 9)
    (hline : hasLine text (k - 1)) (hplain : plainLine (lineAt text (k - 1)))
    (hcount : (recognised (lineAt text (k - 1))).length ≠ 9) :
    read_sudoku g0 text = ReadResult.faultyInput k := by
  have h := read_sudoku_line_faulty g0 text (k - 1) (by omega) hprev hline hplain hcount
  have e : k - 1 + 1 = k := by omega
  rw [e] at h
  exact h

set_option maxRecDepth 100000 in
theorem read_sudoku_faulty_line_witness :
    (∀ i, i < 4 - 1 → plainLine (lineAt shortFourthLineText i) ∧
      (recognised (lineAt shortFourthLineText i)).length = 9) ∧
    hasLine shortFourthLineText (4 - 1) ∧ plainLine (lineAt shortFourthLineText (4 - 1)) ∧
    (recognised (lineAt shortFourthLineText (4 - 1))).length = 8 ∧
    (recognised (lineAt tenDigitText (1 - 1))).length = 10 ∧
    read_sudoku solvedGrid shortFourthLineText = ReadResult.faultyInput 4 ∧
    read_sudoku solvedGrid tenDigitText = ReadResult.faultyInput 1 :=
  ⟨by decide, by decide, by decide, by decide, by decide,
   read_sudoku_faulty_line solvedGrid shortFourthLineText 4 (by decide) (by decide) (by decide)
     (by decide) (by decide) (by decide),
   read_sudoku_faulty_line solvedGrid tenDigitText 1 (by decide) (by decide) (by decide)
     (by decide) (by decide) (by decide)⟩

/-- C14, counterexample.  Each of `longOnlyText` and `nulOnlyText` has exactly one
line, with exactly nine recognised characters; `read_sudoku` fails on the first
with "Faulty input on line 1" and on the second with "line 1 missing", not
with "line 2 missing". -/
theorem read_sudoku_one_line_other_error :
    (hasLine longOnlyText 0 ∧ ¬ hasLine longOnlyText 1 ∧
      (recognised (lineAt longOnlyText 0)).length = 9 ∧
      read_sudoku solvedGrid longOnlyText = ReadResult.faultyInput 1) ∧
    (hasLine nulOnlyText 0 ∧ ¬ hasLine nulOnlyText 1 ∧
      (recognised (lineAt nulOnlyText 0)).length = 9 ∧
      read_sudoku solvedGrid nulOnlyText = ReadResult.lineMissing 1) := by
  set_option maxRecDepth 100000 in decide

/-- C14, as amended.  For every input text with `k < 9` lines in which every
line present has at most 254 characters before the line end, contains no NUL
character and contains exactly nine recognised characters, `read_sudoku` fails
with "Not enough lines of input: line k+1 missing", and not with the
wrong-cell-count error. -/
theorem read_sudoku_missing_line (g0 : sudoku_grid_t) (text : List Char) (k : Nat)
    (hk : k < 9)
    (hlines : ∀ i, i < k →
      hasLine text i ∧ plainLine (lineAt text i) ∧ (recognised (lineAt text i)).length = 9)
    (hend : ¬ hasLine text k) :
    read_sudoku g0 text = ReadResult.lineMissing (k + 1) ∧
      ∀ n, read_sudoku g0 text ≠ ReadResult.faultyInput n := by
  have h := read_sudoku_line_missing g0 text k hk (fun i hi => (hlines i hi).2) hend
  refine ⟨h, ?_⟩
  intro n hn
  rw [h] at hn
  simp at hn

set_option maxRecDepth 100000 in
theorem read_sudoku_missing_line_witness :
    (∀ i, i < 3 → hasLine threeLineText i ∧ plainLine (lineAt threeLineText i) ∧
      (recognised (lineAt threeLineText i)).length = 9) ∧
    ¬ hasLine threeLineText 3 ∧
    read_sudoku solvedGrid threeLineText = ReadResult.lineMissing 4 :=
  ⟨by decide, by decide,
   (read_sudoku_missing_line solvedGrid threeLineText 3 (by decide) (by decide) (by decide)).1⟩

/-- C15.  For every grid with cells in `[0, 9]`, `print_sudoku` emits exactly the
thirteen lines of `outputLines`, each followed by a newline: the top border,
rows 1-3, a separator, rows 4-6, a separator, rows 7-9, the bottom border,
where a row line is ` | a b c | d e f | g h i |` and each cell character is
`'.'` for an empty cell and the decimal digit otherwise; two grids with the
same output are equal. -/
theorem print_sudoku_spec (g : sudoku_grid_t) (hr : inRange g) :
    print_sudoku g = ((outputLines g).flatMap fun l => l ++ ['\n']) ∧
    (outputLines g).length = 13 ∧
    (∀ l ∈ outputLines g, '\n' ∉ l) ∧
    (∀ i j : Fin 9, (rowLine g i)[3 + 2 * j.val + 2 * (j.val / 3)]? =
      some (if cell g i j = EMPTY then '.' else Char.ofNat (48 + (cell g i j).toNat))) ∧
    (∀ g2 : sudoku_grid_t, inRange g2 → print_sudoku g2 = print_sudoku g → g2 = g) :=
  ⟨print_sudoku_layout g hr, rfl, not_newline_mem_outputLines g hr, rowLine_cell g,
   fun g2 hr2 h => print_sudoku_injective g g2 hr hr2 h⟩

set_option maxRecDepth 100000 in
theorem print_sudoku_spec_witness :
    inRange nearPuzzle ∧
    print_sudoku nearPuzzle =
      (" -------------------------\n | 5 3 . | 6 7 8 | 9 1 2 |\n | 6 7 2 | 1 9 5 | 3 4 8 |\n" ++
       " | 1 9 8 | 3 4 2 | 5 6 7 |\n --------+-------+--------\n | 8 5 9 | 7 6 1 | 4 2 3 |\n" ++
       " | 4 2 6 | 8 . 3 | 7 9 1 |\n | 7 1 3 | 9 2 4 | 8 5 6 |\n --------+-------+--------\n" ++
       " | 9 6 1 | 5 3 7 | 2 8 4 |\n | 2 8 7 | 4 1 9 | 6 3 5 |\n | 3 4 5 | 2 8 6 | 1 7 . |\n" ++
       " -------------------------\n").toList ∧
    print_sudoku nearPuzzle = ((outputLines nearPuzzle).flatMap fun l => l ++ ['\n']) :=
  ⟨by decide, by decide, (print_sudoku_spec nearPuzzle (by decide)).1⟩

/-- C16, the failing input.  The text `dupRowText` is read successfully and
`solve_sudoku` returns true on the grid read, but the nine digits shown on the
first grid-row line of the output are not a permutation of `1..9`: the line
shows two 5s. -/
theorem end_to_end_duplicate_row :
    read_sudoku solvedGrid dupRowText = ReadResult.ok dupRowPuzzle ∧
    solve_sudoku 82 dupRowPuzzle = some (true, dupRowFilled) ∧
    rowLine dupRowFilled 0 = " | 5 5 4 | 6 7 8 | 9 1 2 |".toList ∧
    ¬ ((rowList dupRowFilled 0).map cellChar).Perm digitChars := by
  set_option maxRecDepth 100000 in decide

/-- From the file to the output: for every grid obtained by a successful
`read_sudoku` on which `solve_sudoku` returns true, the text produced by
`print_sudoku` for the grid left is the thirteen-line layout and contains no
`'.'` character; when no two distinct filled cells of the grid read that
share a row, a column or a block hold the same digit, the nine digits shown on
each grid-row line, in each column position, and in each 3x3 block are a
permutation of `1..9`. -/
theorem end_to_end (g0 : sudoku_grid_t) (text : List Char) (g : sudoku_grid_t) (fuel : Nat)
    (out : sudoku_grid_t) (hread : read_sudoku g0 text = ReadResult.ok g)
    (hsolve : solve_sudoku fuel g = some (true, out)) :
    print_sudoku out = ((outputLines out).flatMap fun l => l ++ ['\n']) ∧
    '.' ∉ print_sudoku out ∧
    (consistent g →
      (∀ i, ((rowList out i).map cellChar).Perm digitChars) ∧
      (∀ j, ((colList out j).map cellChar).Perm digitChars) ∧
      (∀ a b, ((blockList out a b).map cellChar).Perm digitChars)) := by
  have hr : inRange g := read_sudoku_inRange g0 g text hread
  have hro : inRange out := solve_sudoku_inRange fuel g true out hsolve hr
  have hfo : full out := solve_sudoku_full_of_true fuel g out hsolve
  refine ⟨print_sudoku_layout out hro, not_dot_mem_print_sudoku out hro hfo, ?_⟩
  intro hc
  obtain ⟨h1, h2, h3⟩ := (solve_sudoku_sound fuel g out hsolve hc hr).1
  exact ⟨fun i => map_cellChar_perm _ (h1 i), fun j => map_cellChar_perm _ (h2 j),
    fun a b => map_cellChar_perm _ (h3 a b)⟩

set_option maxRecDepth 100000 in
theorem end_to_end_witness :
    read_sudoku solvedGrid classicText = ReadResult.ok classicPuzzle ∧
    consistent classicPuzzle ∧
    ∃ out, solve_sudoku 82 classicPuzzle = some (true, out) ∧
      print_sudoku out = ((outputLines out).flatMap fun l => l ++ ['\n']) ∧
      '.' ∉ print_sudoku out ∧
      (∀ i, ((rowList out i).map cellChar).Perm digitChars) ∧
      (∀ j, ((colList out j).map cellChar).Perm digitChars) ∧
      (∀ a b, ((blockList out a b).map cellChar).Perm digitChars) :=
  have hread : read_sudoku solvedGrid classicText = ReadResult.ok classicPuzzle := by decide
  have hc : consistent classicPuzzle := by decide
  have hsol : solutionOf classicPuzzle solvedGrid := by decide
  have hrun := solve_sudoku_true_of_solution classicPuzzle solvedGrid hsol 82 (by decide)
  ⟨hread, hc, hrun.elim fun out h =>
    have e := end_to_end solvedGrid classicText classicPuzzle 82 out hread h
    ⟨out, h, e.1, e.2.1, e.2.2 hc⟩⟩

/-- C17.  For every input grid with cells in `[0, 9]` whose filled cells are
mutually consistent (no two distinct filled cells that share a row, a column
or a 3x3 block hold the same digit), if `solve_sudoku` returns true then the
resulting grid has no empty cell and every row, column and block of it is a
permutation of `1..9`. -/
theorem solve_sudoku_valid_of_consistent (fuel : Nat) (g out : sudoku_grid_t)
    (hr : inRange g) (hc : consistent g) (h : solve_sudoku fuel g = some (true, out)) :
    full out ∧ valid out :=
  ⟨solve_sudoku_full_of_true fuel g out h, (solve_sudoku_sound fuel g out h hc hr).1⟩

theorem solve_sudoku_valid_of_consistent_witness :
    inRange twoWayPuzzle ∧ consistent twoWayPuzzle ∧
      solve_sudoku 82 twoWayPuzzle = some (true, solvedGrid) ∧
      full solvedGrid ∧ valid solvedGrid :=
  have hc : consistent twoWayPuzzle := by decide
  ⟨by decide, hc, by decide,
   solve_sudoku_valid_of_consistent 82 twoWayPuzzle solvedGrid (by decide) hc (by decide)⟩

/-- C18.  For every grid, `next_empty` returns the row-major first empty cell: if
some cell is 0 it returns a coordinate `(r, c)` with `grid[r][c] = 0` such that
every cell before it in row-major order (smaller row, or same row and smaller
column) is non-zero; it returns `(-1, -1)` if and only if the grid has no empty
cell. -/
theorem next_empty_spec (g : sudoku_grid_t) :
    ((∃ i j, cell g i j = EMPTY) →
      ∃ r c : Fin 9, next_empty_checked g = some ((r.val : Int), (c.val : Int)) ∧
        next_empty g = some (r, c) ∧ cell g r c = EMPTY ∧
        ∀ i j : Fin 9, (i < r ∨ (i = r ∧ j < c)) → cell g i j ≠ EMPTY) ∧
    (next_empty_checked g = some (-1, -1) ↔ ∀ i j, cell g i j ≠ EMPTY) ∧
    (next_empty g = none ↔ ∀ i j, cell g i j ≠ EMPTY) := by
  refine ⟨?_, ?_, next_empty_eq_none g⟩
  · rintro ⟨i, j, hij⟩
    obtain ⟨r, c, hn⟩ := next_empty_isSome_of_empty g i j hij
    obtain ⟨h0, hb⟩ := next_empty_eq_some g r c hn
    refine ⟨r, c, ?_, hn, h0, hb⟩
    rw [next_empty_checked_eq, hn]
    rfl
  · rw [next_empty_checked_eq]
    cases hn : next_empty g with
    | none =>
      have hfull := (next_empty_eq_none g).1 hn
      constructor
      · intro _
        exact hfull
      · intro _
        rfl
    | some p =>
      obtain ⟨r, c⟩ := p
      have h0 := (next_empty_eq_some g r c hn).1
      constructor
      · intro h
        exfalso
        simp only [coordOf, Option.some.injEq, Prod.mk.injEq] at h
        omega
      · intro h
        exact absurd h0 (h r c)

theorem next_empty_spec_witness :
    (cell nearPuzzle 4 4 = EMPTY ∧ next_empty_checked nearPuzzle = some (0, 2) ∧
      next_empty_checked solvedGrid = some (-1, -1)) ∧
    ∃ r c : Fin 9, next_empty_checked nearPuzzle = some ((r.val : Int), (c.val : Int)) ∧
      next_empty nearPuzzle = some (r, c) ∧ cell nearPuzzle r c = EMPTY ∧
      ∀ i j : Fin 9, (i < r ∨ (i = r ∧ j < c)) → cell nearPuzzle i j ≠ EMPTY :=
  ⟨by decide, (next_empty_spec nearPuzzle).1 ⟨4, 4, by decide⟩⟩

/-- C19.  During `solve_sudoku` on any 9x9 grid every cell read or written has row
and column in `[0, 9)`: the solver whose accesses are checked never reports an
access outside the array and computes what `solve_sudoku` computes;
`next_empty` leaves `(-1, -1)` or a coordinate inside the array; for a
coordinate inside the array `is_legal` reads only cells inside the array, its
partition loops ranging over `3*(row/3) .. 3*(row/3)+2` and
`3*(col/3) .. 3*(col/3)+2`; and the writes to that coordinate are inside the
array. -/
theorem solve_sudoku_in_bounds (g : sudoku_grid_t) :
    (∀ fuel, solve_sudoku_checked fuel g ≠ Checked.outOfBounds ∧
      solve_sudoku_checked fuel g = toChecked (solve_sudoku fuel g)) ∧
    (∀ row col : Int, next_empty_checked g = some (row, col) →
      (row = -1 ∧ col = -1) ∨ (0 ≤ row ∧ row < 9 ∧ 0 ≤ col ∧ col < 9)) ∧
    (∀ (row col : Fin 9) (guess : Int),
      is_legal_checked g guess (row.val : Int) (col.val : Int) =
        some (is_legal g guess row col) ∧
      ∀ p ∈ is_legal_coords (row.val : Int) (col.val : Int),
        0 ≤ p.1 ∧ p.1 < 9 ∧ 0 ≤ p.2 ∧ p.2 < 9) ∧
    (∀ x : Fin 9, ∀ y ∈ intRange (MINOR * ((x.val : Int).tdiv MINOR))
        (MINOR * ((x.val : Int).tdiv MINOR + 1)),
      3 * ((x.val : Int) / 3) ≤ y ∧ y ≤ 3 * ((x.val : Int) / 3) + 2 ∧ 0 ≤ y ∧ y < 9) ∧
    (∀ (row col : Fin 9) (v : Int),
      writeAt g (row.val : Int) (col.val : Int) v = some (setCell g row col v)) := by
  refine ⟨?_, ?_, ?_, ?_, fun row col v => writeAt_coord g row col v⟩
  · intro fuel
    have h := solve_sudoku_checked_eq fuel g
    refine ⟨?_, h⟩
    rw [h]
    cases solve_sudoku fuel g <;> simp [toChecked]
  · intro row col h
    rw [next_empty_checked_eq] at h
    cases hn : next_empty g with
    | none =>
      rw [hn] at h
      simp only [Option.some.injEq, Prod.mk.injEq] at h
      left
      exact ⟨h.1.symm, h.2.symm⟩
    | some p =>
      rw [hn] at h
      simp only [coordOf, Option.some.injEq, Prod.mk.injEq] at h
      right
      have h1 := p.1.isLt
      have h2 := p.2.isLt
      omega
  · intro row col guess
    exact ⟨is_legal_checked_eq g guess row col, is_legal_coords_inside row col⟩
  · decide

theorem solve_sudoku_in_bounds_witness :
    solve_sudoku_checked 82 deadEndPuzzle = Checked.done (false, deadEndPuzzle) ∧
    next_empty_checked deadEndPuzzle = some (0, 7) ∧
    is_legal_checked deadEndPuzzle 8 0 7 = some true ∧
    is_legal_checked deadEndPuzzle 8 0 9 = none ∧
    ((0 : Int) = -1 ∧ (7 : Int) = -1 ∨ (0 ≤ (0 : Int) ∧ (0 : Int) < 9 ∧ 0 ≤ (7 : Int) ∧ (7 : Int) < 9)) :=
  ⟨by decide, by decide, by decide, by decide,
   (solve_sudoku_in_bounds deadEndPuzzle).2.1 0 7 (by decide)⟩

/-- C20, the failing input.  On a text whose first line holds ten digits,
`read_sudoku` stores the tenth at `sudoku[0][9]`, column index 9, before the
test `j > MAJOR` detects the excess; when the line is the ninth, the store goes
to `sudoku[8][9]`, past the end of the array. -/
theorem read_sudoku_writes_column_nine :
    read_sudoku_writes solvedGrid tenDigitText =
      [(0, 0), (0, 1), (0, 2), (0, 3), (0, 4), (0, 5), (0, 6), (0, 7), (0, 8), (0, 9)] ∧
    read_sudoku solvedGrid tenDigitText = ReadResult.faultyInput 1 ∧
    (8, 9) ∈ read_sudoku_writes solvedGrid tenDigitLastLineText ∧
    read_sudoku solvedGrid tenDigitLastLineText = ReadResult.faultyInput 9 := by
  set_option maxRecDepth 100000 in decide

end Sudoku
